import Mathlib

/-!
Verification of the terminal escape-sequence scanner and command interpreter
(packages `ansi`, `vt`, `input` of the repository) against its specification.

The scanner `DecodeSequence` (src/ansi/parser_decode.go) is embedded as a
step function over single bytes plus a structurally recursive loop over the
remaining input.  Machine integers are modelled as `Int`/`Nat`; Go slice
indexing out of range (a runtime panic) is modelled by an `Option` result
(`none` = panic).  Components of the repository that are not part of the
given sources (the `parser` constant package, the cellbuf screen collaborator,
the uniseg grapheme collaborator, the X10 mouse decoder) are modelled from the
spec and marked as such.
-/

/-! ## Byte constants (C0/C1 controls, modelled from the spec's wire formats) -/

/-- ESC byte 0x1B. -/
def ESC : Nat := 0x1B
/-- 8-bit CSI 0x9B. -/
def CSI : Nat := 0x9B
/-- 8-bit DCS 0x90. -/
def DCS : Nat := 0x90
/-- 8-bit OSC 0x9D. -/
def OSC : Nat := 0x9D
/-- 8-bit APC 0x9F. -/
def APC : Nat := 0x9F
/-- 8-bit SOS 0x98. -/
def SOS : Nat := 0x98
/-- 8-bit PM 0x9E. -/
def PM : Nat := 0x9E
/-- BEL byte 0x07. -/
def BEL : Nat := 0x07
/-- CAN byte 0x18. -/
def CAN : Nat := 0x18
/-- SUB byte 0x1A. -/
def SUB : Nat := 0x1A
/-- 8-bit ST 0x9C (source name `ST`, taken in Lean). -/
def STC : Nat := 0x9C
/-- US byte 0x1F. -/
def US : Nat := 0x1F
/-- DEL byte 0x7F. -/
def DEL : Nat := 0x7F

/-! ## Scanner states (src/ansi/parser_decode.go, `State = byte`, iota) -/

/-- `NormalState = 0`. -/
def NormalState : Nat := 0
/-- `MarkerState = 1`. -/
def MarkerState : Nat := 1
/-- `ParamsState = 2`. -/
def ParamsState : Nat := 2
/-- `IntermedState = 3`. -/
def IntermedState : Nat := 3
/-- `EscapeState = 4`. -/
def EscapeState : Nat := 4
/-- `StringState = 5`. -/
def StringState : Nat := 5

/-! ## The `parser` constant package.

Modelled from the spec: the command packs the final byte in the low byte, the
marker in the next byte and the intermediate in the next (shifts 8 and 16,
mask 0xff); a parameter is a 31-bit value, the value `2^31 - 1` being the
"missing" sentinel, with a has-more flag held in the min-int32 sign bit.
The flag/mask bit operations on Go's 64-bit `int` are expressed
arithmetically: for any `v`, `v | math.MinInt32 = v mod 2^31 - 2^31`,
`v & 0x7FFFFFFF = v mod 2^31`, and `v & math.MinInt32 ≠ 0` iff `v` is
negative or at least `2^31`. -/

/-- `parser.MarkerShift = 8`. -/
def markerShift : Nat := 8
/-- `parser.IntermedShift = 16`. -/
def intermedShift : Nat := 16
/-- `parser.MissingParam = parser.ParamMask = 2^31 - 1`. -/
def missingParam : Int := 2 ^ 31 - 1
/-- `parser.MissingCommand = 2^31 - 1` (the scanner's command word stays
nonnegative, so it is modelled as a `Nat`). -/
def missingCommand : Nat := 2 ^ 31 - 1

/-- `v |= parser.HasMoreFlag` on a Go `int`, written arithmetically. -/
def setHasMore (v : Int) : Int := v % (2 ^ 31) - 2 ^ 31

/-- `v & parser.ParamMask` on a Go `int`, written arithmetically. -/
def maskParam (v : Int) : Int := v % (2 ^ 31)

/-- `v & parser.HasMoreFlag != 0` on a Go `int`. -/
def hasMoreFlag (v : Int) : Bool := v < 0 || 2 ^ 31 ≤ v

/-- `cmd &^= 0xff << shift; cmd |= c << shift` for a nonnegative command word:
`cmd &&& (0xff <<< shift)` extracts exactly the bits of the cleared byte, so
subtracting it clears them. -/
def setCmdByte (shift c cmd : Nat) : Nat :=
  (cmd - (cmd &&& (0xff <<< shift))) ||| (c <<< shift)

/-! ## Parser context (src/ansi: the `Parser` struct used by `DecodeSequence`).

`params` and `data` are the fixed-capacity slots: their lengths are the
capacities, never changed by the scanner (writes use `List.set`). -/

/-- The reusable parser context: parameter slots, parameter count, packed
command, data buffer and data length. -/
structure Parser where
  params : List Int
  paramsLen : Nat
  cmd : Nat
  data : List Nat
  dataLen : Nat
deriving DecidableEq

/-- Context reset on ESC/CSI/DCS seen from `NormalState`
(`params[0] = MissingParam` if capacity allows; `cmd`, `paramsLen`,
`dataLen` zeroed). -/
def resetCtx (q : Parser) : Parser :=
  let q := if 0 < q.params.length then { q with params := q.params.set 0 missingParam } else q
  { q with cmd := 0, paramsLen := 0, dataLen := 0 }

/-- Context reset on `[`/`P` seen from `EscapeState` (same, but `dataLen`
is left untouched, exactly as in the source). -/
def resetCtxEsc (q : Parser) : Parser :=
  let q := if 0 < q.params.length then { q with params := q.params.set 0 missingParam } else q
  { q with paramsLen := 0, cmd := 0 }

/-- Entering a string sequence: `cmd = MissingCommand`, `dataLen = 0`. -/
def startString (q : Parser) : Parser := { q with cmd := missingCommand, dataLen := 0 }

/-- Advance to the next parameter slot on `;`/`:`
(`paramsLen++`, initialise the new slot to missing if within capacity). -/
def advanceParam (q : Parser) : Parser :=
  let q := { q with paramsLen := q.paramsLen + 1 }
  if q.paramsLen < q.params.length then
    { q with params := q.params.set q.paramsLen missingParam }
  else q

/-- The end-of-parameters fixup before a final byte: increment `paramsLen`
when the last slot was populated (`paramsLen > 0 && paramsLen < len-1 ||
paramsLen == 0 && len > 0 && params[0] != MissingParam`). -/
def incrLastParam (q : Parser) : Parser :=
  if (0 < q.paramsLen ∧ q.paramsLen + 1 < q.params.length) ∨
      (q.paramsLen = 0 ∧ 0 < q.params.length ∧ q.params.getD 0 0 ≠ missingParam) then
    { q with paramsLen := q.paramsLen + 1 }
  else q

/-- `parseOscCmd`'s digit loop over the collected data
(first digit replaces the missing-command sentinel by 0). -/
def oscDigits : List Nat → Nat → Nat
  | [], cmd => cmd
  | d :: rest, cmd =>
    if 0x30 ≤ d ∧ d ≤ 0x39 then
      oscDigits rest ((if cmd = missingCommand then 0 else cmd) * 10 + (d - 0x30))
    else cmd

/-- `parseOscCmd`: parse the leading numeric OSC command from the data
buffer, only when the command is still unset. -/
def parseOscCmd : Option Parser → Option Parser
  | none => none
  | some q =>
    if q.cmd ≠ missingCommand then some q
    else some { q with cmd := oscDigits (q.data.take q.dataLen) q.cmd }

/-! ## Buffer introducer tests (`HasOscPrefix`, `HasDcsPrefix`, `HasStPrefix`
in the source; renamed here). -/

/-- Go `HasOscPrefix`: first byte is 8-bit OSC, or ESC followed by `]`. -/
def hasOscIntro : List Nat → Bool
  | [] => false
  | [c0] => c0 == OSC
  | c0 :: c1 :: _ => c0 == OSC || (c0 == ESC && c1 == 0x5D)

/-- Go `HasDcsPrefix`: first byte is 8-bit DCS, or ESC followed by `P`. -/
def hasDcsIntro : List Nat → Bool
  | [] => false
  | [c0] => c0 == DCS
  | c0 :: c1 :: _ => c0 == DCS || (c0 == ESC && c1 == 0x50)

/-- Go `HasStPrefix`: first byte is 8-bit ST, or ESC followed by `\`. -/
def hasStIntro : List Nat → Bool
  | [] => false
  | [c0] => c0 == STC
  | c0 :: c1 :: _ => c0 == STC || (c0 == ESC && c1 == 0x5C)

/-- Go stdlib `utf8.RuneStart`: `b & 0xC0 != 0x80`. -/
def runeStart (c : Nat) : Bool := c &&& 0xC0 != 0x80

/-- Modelled from the spec: the external grapheme/width collaborator
(`uniseg.FirstGraphemeCluster`).  Returns the byte length of the first
cluster (positive, at most the buffer length: here the UTF-8 length of the
lead byte capped by the buffer) and its display width. -/
def firstGrapheme : List Nat → Nat × Nat
  | [] => (0, 0)
  | c :: rest =>
    (min (if c < 0xE0 then 2 else if c < 0xF0 then 3 else 4) (rest.length + 1), 1)

/-! ## The per-byte step of `DecodeSequence`.

`b` is the whole buffer of the current call, `i` the index of the byte `c`
being processed.  The Go `fallthrough`s from `MarkerState` to `ParamsState`
to `IntermedState` are the nested calls below. -/

/-- One decoded token: its display width, the bytes consumed `n`
(the token is `b.take n`), the state returned, and the context. -/
structure DecodeResult where
  width : Nat
  n : Nat
  state : Nat
  ctx : Option Parser
deriving DecidableEq

/-- Outcome of processing one byte: continue the loop, return a token,
or panic (Go index out of range). -/
inductive StepOut where
  | cont (state : Nat) (p : Option Parser)
  | ret (r : DecodeResult)
  | panic
deriving DecidableEq

/-- `IntermedState` byte handling (also reached by fallthrough). -/
def intermedLogic (b : List Nat) (i c : Nat) (p : Option Parser) : StepOut :=
  if 0x20 ≤ c ∧ c ≤ 0x2F then
    .cont IntermedState (p.map fun q => { q with cmd := setCmdByte intermedShift c q.cmd })
  else
    let p := p.map incrLastParam
    if 0x40 ≤ c ∧ c ≤ 0x7E then
      let p := p.map fun q => { q with cmd := setCmdByte 0 c q.cmd }
      if hasDcsIntro b then
        .cont StringState (p.map fun q => { q with dataLen := 0 })
      else
        .ret ⟨0, i + 1, NormalState, p⟩
    else
      .ret ⟨0, i, NormalState, p⟩

/-- `ParamsState` byte handling (also reached by fallthrough).  Digits and
`:` index `params[paramsLen]` unguarded, hence may panic. -/
def paramsLogic (b : List Nat) (i c : Nat) (p : Option Parser) : StepOut :=
  if 0x30 ≤ c ∧ c ≤ 0x39 then
    match p with
    | none => .cont ParamsState none
    | some q =>
      match q.params.get? q.paramsLen with
      | none => .panic
      | some v =>
        let v0 : Int := if v = missingParam then 0 else v
        .cont ParamsState (some { q with params := q.params.set q.paramsLen (v0 * 10 + ((c : Int) - 0x30)) })
  else if c = 0x3A then
    match p with
    | none => .cont ParamsState none
    | some q =>
      match q.params.get? q.paramsLen with
      | none => .panic
      | some v =>
        .cont ParamsState (some (advanceParam { q with params := q.params.set q.paramsLen (setHasMore v) }))
  else if c = 0x3B then
    .cont ParamsState (p.map advanceParam)
  else intermedLogic b i c p

/-- `MarkerState` byte handling. -/
def markerLogic (b : List Nat) (i c : Nat) (p : Option Parser) : StepOut :=
  if 0x3C ≤ c ∧ c ≤ 0x3F then
    .cont MarkerState (p.map fun q => { q with cmd := setCmdByte markerShift c q.cmd })
  else paramsLogic b i c p

/-- `EscapeState` byte handling. -/
def escapeLogic (b : List Nat) (i c : Nat) (p : Option Parser) : StepOut :=
  if c = 0x5B ∨ c = 0x50 then .cont MarkerState (p.map resetCtxEsc)
  else if c = 0x5D ∨ c = 0x58 ∨ c = 0x5E ∨ c = 0x5F then .cont StringState (p.map startString)
  else if 0x20 ≤ c ∧ c ≤ 0x2F then
    .cont EscapeState (p.map fun q => { q with cmd := setCmdByte intermedShift c q.cmd })
  else if 0x30 ≤ c ∧ c ≤ 0x7E then
    .ret ⟨0, i + 1, NormalState, p.map fun q => { q with cmd := setCmdByte 0 c q.cmd }⟩
  else .ret ⟨0, i, NormalState, p⟩

/-- `StringState` byte handling. -/
def stringLogic (b : List Nat) (i c : Nat) (p : Option Parser) : StepOut :=
  if c = BEL ∧ hasOscIntro b then .ret ⟨0, i + 1, NormalState, parseOscCmd p⟩
  else if c = CAN ∨ c = SUB then
    .ret ⟨0, i, NormalState, if hasOscIntro b then parseOscCmd p else p⟩
  else if c = STC then
    .ret ⟨0, i + 1, NormalState, if hasOscIntro b then parseOscCmd p else p⟩
  else if c = ESC then
    if hasStIntro (b.drop i) then
      .ret ⟨0, i + 2, NormalState, if hasOscIntro b then parseOscCmd p else p⟩
    else .ret ⟨0, i, NormalState, p⟩
  else
    match p with
    | none => .cont StringState none
    | some q =>
      if q.dataLen < q.data.length then
        let q := { q with data := q.data.set q.dataLen c, dataLen := q.dataLen + 1 }
        .cont StringState (if c = 0x3B ∧ hasOscIntro b then parseOscCmd (some q) else some q)
      else .cont StringState (some q)

/-- `NormalState` byte handling. -/
def normalLogic (b : List Nat) (i c : Nat) (p : Option Parser) : StepOut :=
  if c = ESC then .cont EscapeState (p.map resetCtx)
  else if c = CSI ∨ c = DCS then .cont MarkerState (p.map resetCtx)
  else if c = OSC ∨ c = APC ∨ c = SOS ∨ c = PM then .cont StringState (p.map startString)
  else
    let p := p.map fun q => { q with dataLen := 0, paramsLen := 0, cmd := 0 }
    if US < c ∧ c < DEL then .ret ⟨1, 1, NormalState, p⟩
    else if c ≤ US ∨ c = DEL ∨ c < 0xC0 then .ret ⟨0, 1, NormalState, p⟩
    else if runeStart c then .ret ⟨(firstGrapheme b).2, i + (firstGrapheme b).1, NormalState, p⟩
    else .ret ⟨0, i, NormalState, p⟩

/-- Process one byte in the given state (the body of the scanner's loop;
a state outside the six known ones matches no switch case and the loop just
moves on). -/
def decodeStep (b : List Nat) (i c state : Nat) (p : Option Parser) : StepOut :=
  if state = NormalState then normalLogic b i c p
  else if state = MarkerState then markerLogic b i c p
  else if state = ParamsState then paramsLogic b i c p
  else if state = IntermedState then intermedLogic b i c p
  else if state = EscapeState then escapeLogic b i c p
  else if state = StringState then stringLogic b i c p
  else .cont state p

/-- The scanner loop.  `rest` is the unprocessed suffix `b.drop i`; when it
is exhausted the call suspends, returning the whole buffer as the token and
the current state (`return b, 0, len(b), state`). -/
def decodeLoop (b : List Nat) : List Nat → Nat → Nat → Option Parser → Option DecodeResult
  | [], _, state, p => some ⟨0, b.length, state, p⟩
  | c :: rest, i, state, p =>
    match decodeStep b i c state p with
    | .cont st' p' => decodeLoop b rest (i + 1) st' p'
    | .ret r => some r
    | .panic => none

/-- `DecodeSequence(b, state, p)`: decode the first escape sequence or
grapheme from `b`.  `none` models a Go runtime panic. -/
def DecodeSequence (b : List Nat) (state : Nat) (p : Option Parser) : Option DecodeResult :=
  decodeLoop b b 0 state p

/-- The scanner's loop reaches index `i` in state `st` with context `p`
(without having returned or panicked before `i`). -/
inductive Reaches (b : List Nat) (st0 : Nat) (p0 : Option Parser) :
    Nat → Nat → Option Parser → Prop where
  | refl : Reaches b st0 p0 0 st0 p0
  | step {i st p st' p' c} : Reaches b st0 p0 i st p → b.get? i = some c →
      decodeStep b i c st p = .cont st' p' → Reaches b st0 p0 (i + 1) st' p'

/-! ## Command/parameter packing (src/ansi/parser_decode.go, `Cmd`, `Param`,
`Command`, `Parameter`).  The `parser` package accessors `Marker`,
`Intermediate`, `Command` are modelled from the spec as the inverse
unpacking. -/

/-- `Cmd(marker, inter, cmd)`: pack a command with its marker and
intermediate (each masked to its low 8 bits). -/
def Cmd (marker inter cmd : Nat) : Nat :=
  ((cmd &&& 0xff) ||| ((marker &&& 0xff) <<< markerShift)) ||| ((inter &&& 0xff) <<< intermedShift)

/-- `Command.Marker`: unpack the marker byte. -/
def cmdMarker (c : Nat) : Nat := (c >>> markerShift) &&& 0xff

/-- `Command.Intermediate`: unpack the intermediate byte. -/
def cmdIntermediate (c : Nat) : Nat := (c >>> intermedShift) &&& 0xff

/-- `Command.Command`: unpack the final (command) byte. -/
def cmdFinal (c : Nat) : Nat := c &&& 0xff

/-- `Param(p, hasMore)`: pack a parameter value with its sub-parameter flag
(`s = p & ParamMask; if hasMore { s |= HasMoreFlag }`, with the flag/mask
arithmetic of the modelled `parser` package). -/
def Param (p : Int) (hasMore : Bool) : Int :=
  let s := p % (2 ^ 31)
  if hasMore then s - 2 ^ 31 else s

/-- `Parameter.Param(def)`: unpack the value, substituting the default for
the missing sentinel. -/
def paramValue (s : Int) (dflt : Int) : Int :=
  let pv := s % (2 ^ 31)
  if pv = missingParam then dflt else pv

/-- `Parameter.HasMore`: unpack the sub-parameter flag. -/
def paramHasMore (s : Int) : Bool := hasMoreFlag s

/-! ## Mouse events (package `input`).

The event and button types follow the spec's data model; the X10 report
encoder is taken from the test in src/input/mouse_test.go; the decoder
`parseX10MouseEvent` is not part of the given sources and is modelled from
the spec (§4.3). -/

/-- Mouse buttons. -/
inductive MouseButton where
  | none | left | middle | right
  | wheelUp | wheelDown | wheelLeft | wheelRight
  | backward | forward | button10 | button11
deriving DecidableEq

/-- Modifier bitset. -/
structure MouseMod where
  shift : Bool
  alt : Bool
  ctrl : Bool
deriving DecidableEq

/-- Mouse events: click, release, motion or wheel, with coordinates,
button and modifiers. -/
inductive MouseEvent where
  | click (x y : Int) (button : MouseButton) (mod : MouseMod)
  | release (x y : Int) (button : MouseButton) (mod : MouseMod)
  | motion (x y : Int) (button : MouseButton) (mod : MouseMod)
  | wheel (x y : Int) (button : MouseButton) (mod : MouseMod)
deriving DecidableEq

/-- The x coordinate of an event. -/
def MouseEvent.x : MouseEvent → Int
  | .click x _ _ _ | .release x _ _ _ | .motion x _ _ _ | .wheel x _ _ _ => x

/-- The y coordinate of an event. -/
def MouseEvent.y : MouseEvent → Int
  | .click _ y _ _ | .release _ y _ _ | .motion _ y _ _ | .wheel _ y _ _ => y

/-- The X10 report encoder of the test (src/input/mouse_test.go):
`ESC [ M (32+b) (x+32+1) (y+32+1)` with Go `byte` conversions wrapping
modulo 256. -/
def encodeX10 (b : Nat) (x y : Int) : List Nat :=
  [ESC, 0x5B, 0x4D, (32 + b) % 256, ((x + 32 + 1) % 256).toNat, ((y + 32 + 1) % 256).toNat]

/-- Base button from the low two bits of the button byte. -/
def x10BaseButton (bb : Nat) : MouseButton :=
  match bb &&& 3 with
  | 0 => .left
  | 1 => .middle
  | 2 => .right
  | _ => .none

/-- Wheel direction from the low two bits. -/
def x10WheelButton (bb : Nat) : MouseButton :=
  match bb &&& 3 with
  | 0 => .wheelUp
  | 1 => .wheelDown
  | 2 => .wheelLeft
  | _ => .wheelRight

/-- Extended button from the low two bits. -/
def x10ExtButton (bb : Nat) : MouseButton :=
  match bb &&& 3 with
  | 0 => .backward
  | 1 => .forward
  | 2 => .button10
  | _ => .button11

/-- Modelled from the spec (§4.3): `parseX10MouseEvent` decodes the fixed
3 bytes after the `ESC [ M` introducer.  `x = raw_x_byte − 33` and
`y = raw_y_byte − 33` as signed arithmetic with no wraparound correction;
the button byte `B = raw − 32` selects base button, modifiers, motion,
wheel and extended-button reports by its bits. -/
def parseX10MouseEvent (buf : List Nat) : MouseEvent :=
  let bb : Nat := buf.getD 3 0 - 32
  let x : Int := (buf.getD 4 0 : Int) - 33
  let y : Int := (buf.getD 5 0 : Int) - 33
  let mod : MouseMod := ⟨bb &&& 0x04 ≠ 0, bb &&& 0x08 ≠ 0, bb &&& 0x10 ≠ 0⟩
  if bb &&& 0x40 ≠ 0 then
    .wheel x y (x10WheelButton bb) mod
  else
    let btn := if bb &&& 0x80 ≠ 0 then x10ExtButton bb else x10BaseButton bb
    if bb &&& 0x20 ≠ 0 then .motion x y btn mod
    else if btn = .none then .release x y .none mod
    else .click x y btn mod

/-! ## The terminal interpreter (src/vt/csi.go).

The screen/cell collaborator (`cellbuf`) is external; it is modelled from
the spec (§6, §3): a `width × height` grid of cells, a cursor that
`move_cursor` always clamps into `[0,width-1] × [0,height-1]`, `fill`
over a rectangle and `clear` of the whole screen.  The pen (`cellbuf.Style`)
carries the attributes the spec lists. -/

/-- Underline styles (cellbuf, modelled). -/
inductive UnderStyle where
  | noLine | single | double | curly | dotted | dashed
deriving DecidableEq

/-- Colors: basic (0-15), extended (256-indexed), or RGB. -/
inductive VtColor where
  | basic (n : Nat)
  | extended (n : Nat)
  | rgb (r g b : Nat)
deriving DecidableEq

/-- The pen (cellbuf.Style, modelled from the spec's pen attributes). -/
structure Style where
  bold : Bool
  faint : Bool
  italic : Bool
  underline : Bool
  slowBlink : Bool
  rapidBlink : Bool
  reverse : Bool
  conceal : Bool
  strikethrough : Bool
  ulStyle : UnderStyle
  fg : Option VtColor
  bg : Option VtColor
  ulColor : Option VtColor
deriving DecidableEq

/-- The default (reset) pen. -/
def defaultStyle : Style :=
  ⟨false, false, false, false, false, false, false, false, false, .noLine, none, none, none⟩

/-- A screen cell. -/
structure Cell where
  content : String
  width : Nat
  style : Style
deriving DecidableEq

/-- `spaceCell` (src/vt/csi.go): a blank one-column space cell. -/
def spaceCell : Cell := ⟨" ", 1, defaultStyle⟩

/-- The blank cell a `Clear` resets cells to (modelled). -/
def blankCell : Cell := ⟨" ", 1, defaultStyle⟩

/-- `cellbuf.Rectangle`. -/
structure Rectangle where
  x : Int
  y : Int
  w : Int
  h : Int
deriving DecidableEq

/-- The screen collaborator, modelled from the spec: dimensions, cell grid,
cursor position and visibility, and the current pen. -/
structure ScreenVt where
  width : Nat
  height : Nat
  grid : List (List Cell)
  curX : Int
  curY : Int
  curVisible : Bool
  pen : Style
deriving DecidableEq

/-- `clamp` (src/vt/csi.go): clamp `v` into `[low, high]`, swapping the
bounds when reversed. -/
def clamp (v low high : Int) : Int :=
  if high < low then min low (max high v) else min high (max low v)

/-- Modelled from the spec: `move_cursor` always clamps the cursor into the
screen's bounds. -/
def moveCursor (x y : Int) (s : ScreenVt) : ScreenVt :=
  { s with curX := clamp x 0 ((s.width : Int) - 1), curY := clamp y 0 ((s.height : Int) - 1) }

/-- Modelled from the spec: `fill(cell, rect)` overwrites every grid cell
inside the rectangle. -/
def fillScreen (c : Cell) (r : Rectangle) (s : ScreenVt) : ScreenVt :=
  { s with grid := s.grid.mapIdx fun yi row => row.mapIdx fun xi old =>
      if r.x ≤ (xi : Int) ∧ (xi : Int) < r.x + r.w ∧ r.y ≤ (yi : Int) ∧ (yi : Int) < r.y + r.h
      then c else old }

/-- Modelled from the spec: `Clear(nil)` resets every cell of the screen to
the blank cell. -/
def clearScreen (s : ScreenVt) : ScreenVt :=
  { s with grid := s.grid.map fun row => row.map fun _ => blankCell }

/-- Modelled from the spec: the tab-stop collaborator's `Next`, advancing to
the next (8-column) stop or the last column when none remain. -/
def tabstopNext (w : Nat) (x : Int) : Int := min ((w : Int) - 1) (8 * (x / 8 + 1))

/-- Mode settings. -/
inductive ModeSetting where
  | reset | set
deriving DecidableEq

/-- The terminal state the interpreter mutates: two screens (primary and
alternate) with the active index, the ANSI and DEC-private mode tables, and
the decoded command context the scanner produced (`Params`, `ParamsLen`,
`Cmd`). -/
structure Terminal where
  primary : ScreenVt
  alternate : ScreenVt
  active : Nat
  modes : Int → ModeSetting
  pmodes : Int → ModeSetting
  parserParams : List Int
  parserParamsLen : Nat
  parserCmd : Nat

/-- The active screen (`t.scr`). -/
def Terminal.scr (t : Terminal) : ScreenVt := if t.active = 1 then t.alternate else t.primary

/-- Write back the active screen. -/
def Terminal.setScr (t : Terminal) (s : ScreenVt) : Terminal :=
  if t.active = 1 then { t with alternate := s } else { t with primary := s }

/-- The mode setting selected by the command's final byte
(`ModeSet` iff the final byte is `h`). -/
def modeSettingOf (t : Terminal) : ModeSetting :=
  if cmdFinal t.parserCmd = 0x68 then .set else .reset

/-- The DEC-private mode side effects of `handleMode`: mode 25 toggles the
active screen's cursor visibility, mode 1047 switches the active screen
pointer, mode 1049 switches it and clears the alternate screen on entering. -/
def handleDecMode (t : Terminal) (mode : Int) (setting : ModeSetting) : Terminal :=
  if mode = 25 then t.setScr { t.scr with curVisible := setting = .set }
  else if mode = 1047 then
    if setting = .set then { t with active := 1 } else { t with active := 0 }
  else if mode = 1049 then
    if setting = .set then
      ({ t with active := 1 }).setScr (clearScreen ({ t with active := 1 }).scr)
    else { t with active := 0 }
  else t

/-- The body of `handleMode` (src/vt/csi.go) once the first parameter has
been read: record the mode in the DEC table (with its side effects) or the
ANSI table, depending on the `?` marker. -/
def handleModeWith (t : Terminal) (p0 : Int) : Terminal :=
  if cmdMarker t.parserCmd = 0x3F then
    handleDecMode
      { t with pmodes := fun m => if m = maskParam p0 then modeSettingOf t else t.pmodes m }
      (maskParam p0) (modeSettingOf t)
  else
    { t with modes := fun m => if m = maskParam p0 then modeSettingOf t else t.modes m }

/-- `handleMode` (src/vt/csi.go): no-op without parameters, else act on
`Params[0]`, whose read through the context's fixed slots panics (`none`)
when out of range. -/
def handleMode (t : Terminal) : Option Terminal :=
  if t.parserParamsLen = 0 then some t
  else (t.parserParams.get? 0).map (handleModeWith t)

/-- The cell ECH fills with: `c := spaceCell; c.Style = t.scr.cur.Pen`. -/
def echCell (pen : Style) : Cell := { spaceCell with style := pen }

/-- The per-command target of `handleCursor` given the raw first parameter
`n` (`n = p.Params[0]`, defaulting to 1): the screen after any side effect
(the ECH fill) and the cursor coordinates passed to the final `moveCursor`. -/
def cursorTarget (t : Terminal) (n : Int) : Option (ScreenVt × Int × Int) :=
  match cmdFinal t.parserCmd with
  | 0x41 =>  -- CUU - Cursor Up
    some (t.scr, t.scr.curX, max 0 (t.scr.curY - n))
  | 0x42 =>  -- CUD - Cursor Down
    some (t.scr, t.scr.curX, min ((t.scr.height : Int) - 1) (t.scr.curY + n))
  | 0x43 =>  -- CUF - Cursor Forward
    some (t.scr, min ((t.scr.width : Int) - 1) (t.scr.curX + n), t.scr.curY)
  | 0x44 =>  -- CUB - Cursor Back
    some (t.scr, max 0 (t.scr.curX - n), t.scr.curY)
  | 0x45 =>  -- CNL - Cursor Next Line
    some (t.scr, 0, min ((t.scr.height : Int) - 1) (t.scr.curY + n))
  | 0x46 =>  -- CPL - Cursor Previous Line
    some (t.scr, 0, max 0 (t.scr.curY - n))
  | 0x47 =>  -- CHA - Cursor Character Absolute
    some (t.scr, min ((t.scr.width : Int) - 1) (max 0 (n - 1)), t.scr.curY)
  | 0x48 | 0x66 =>  -- CUP / HVP - Cursor Position
    if 2 ≤ t.parserParamsLen then
      match t.parserParams.get? 0, t.parserParams.get? 1 with
      | some r0, some c0 =>
        some (t.scr, min ((t.scr.width : Int) - 1) (max 0 (maskParam c0 - 1)),
              min ((t.scr.height : Int) - 1) (max 0 (maskParam r0 - 1)))
      | _, _ => none
    else some (t.scr, 0, 0)
  | 0x49 =>  -- CHT - Cursor Forward Tabulation
    some (t.scr, (tabstopNext t.scr.width)^[n.toNat] t.scr.curX, t.scr.curY)
  | 0x58 =>  -- ECH - Erase Character
    some (fillScreen (echCell t.scr.pen) ⟨t.scr.curX, t.scr.curY, n, 1⟩ t.scr,
          min ((t.scr.width : Int) - 1) (t.scr.curX + n), t.scr.curY)
  | 0x64 =>  -- VPA - Vertical Line Position Absolute
    some (t.scr, t.scr.curX, min ((t.scr.height : Int) - 1) (max 0 (n - 1)))
  | 0x65 =>  -- VPR - Vertical Line Position Relative
    some (t.scr, t.scr.curX, min ((t.scr.height : Int) - 1) (max 0 (t.scr.curY + n)))
  | _ => some (t.scr, t.scr.curX, t.scr.curY)

/-- `handleCursor` (src/vt/csi.go): read the raw first parameter (a panic
on that read propagates), compute the per-command target and end with
`t.scr.moveCursor(x, y)`. -/
def handleCursor (t : Terminal) : Option Terminal :=
  (if 0 < t.parserParamsLen then t.parserParams.get? 0 else some 1).bind fun n =>
    (cursorTarget t n).map fun sxy => t.setScr (moveCursor sxy.2.1 sxy.2.2 sxy.1)

/-- `readColor` (src/vt/csi.go): read an extended-color group at index `i`
of the SGR parameter list.  Returns the color (or `none` if the group was
rejected) and the amount the index cursor advances (`*idxp += 4` or `+= 2`);
the outer `none` is a Go index-out-of-range panic. -/
def readColor (i : Nat) (params : List Int) : Option (Option VtColor × Nat) :=
  let paramsLen : Int := params.length
  if (i : Int) > paramsLen - 1 then some (none, 0)
  else
    match params.get? (i + 1) with
    | none => .none
    | some v =>
      if v = 2 then
        if (i : Int) > paramsLen - 4 then some (none, 0)
        else
          match params.get? (i + 2), params.get? (i + 3), params.get? (i + 4) with
          | some r, some g, some b =>
            some (some (.rgb ((r % 256).toNat) ((g % 256).toNat) ((b % 256).toNat)), 4)
          | _, _, _ => .none
      else if v = 5 then
        if (i : Int) > paramsLen - 2 then some (none, 0)
        else
          match params.get? (i + 2) with
          | none => .none
          | some e => some (some (.extended ((e % 256).toNat)), 2)
      else some (none, 0)

/-- The underline-style selection of SGR `4:n`. -/
def underlineOf (pen : Style) (nextParam : Int) : Style :=
  if nextParam = 0 then { pen with ulStyle := .noLine }
  else if nextParam = 1 then { pen with ulStyle := .single }
  else if nextParam = 2 then { pen with ulStyle := .double }
  else if nextParam = 3 then { pen with ulStyle := .curly }
  else if nextParam = 4 then { pen with ulStyle := .dotted }
  else if nextParam = 5 then { pen with ulStyle := .dashed }
  else pen

/-- The loop of `handleSgr` over the parameter slice.  `none` models a Go
panic (the unguarded `params[i+1]` reads of codes 4 and 38/48/58). -/
def sgrLoop (params : List Int) (i : Nat) (pen : Style) : Option Style :=
  match h : params.get? i with
  | none => some pen
  | some r =>
    let param := maskParam r
    let hasMore := hasMoreFlag r
    if param = 0 then sgrLoop params (i + 1) defaultStyle
    else if param = 1 then sgrLoop params (i + 1) { pen with bold := true }
    else if param = 2 then sgrLoop params (i + 1) { pen with faint := true }
    else if param = 3 then sgrLoop params (i + 1) { pen with italic := true }
    else if param = 4 then
      if hasMore then
        match params.get? (i + 1) with
        | none => .none
        | some np => sgrLoop params (i + 1) (underlineOf pen (maskParam np))
      else sgrLoop params (i + 1) { pen with underline := true }
    else if param = 5 then sgrLoop params (i + 1) { pen with slowBlink := true }
    else if param = 6 then sgrLoop params (i + 1) { pen with rapidBlink := true }
    else if param = 7 then sgrLoop params (i + 1) { pen with reverse := true }
    else if param = 8 then sgrLoop params (i + 1) { pen with conceal := true }
    else if param = 9 then sgrLoop params (i + 1) { pen with strikethrough := true }
    else if param = 22 then sgrLoop params (i + 1) { pen with bold := false, faint := false }
    else if param = 23 then sgrLoop params (i + 1) { pen with italic := false }
    else if param = 24 then sgrLoop params (i + 1) { pen with underline := false }
    else if param = 25 then sgrLoop params (i + 1) { pen with slowBlink := false, rapidBlink := false }
    else if param = 27 then sgrLoop params (i + 1) { pen with reverse := false }
    else if param = 28 then sgrLoop params (i + 1) { pen with conceal := false }
    else if param = 29 then sgrLoop params (i + 1) { pen with strikethrough := false }
    else if 30 ≤ param ∧ param ≤ 37 then
      sgrLoop params (i + 1) { pen with fg := some (.basic (param - 30).toNat) }
    else if param = 38 then
      match readColor i params with
      | .none => .none
      | some (c?, adv) =>
        sgrLoop params (i + adv + 1)
          (match c? with | some col => { pen with fg := some col } | none => pen)
    else if param = 39 then sgrLoop params (i + 1) { pen with fg := none }
    else if 40 ≤ param ∧ param ≤ 47 then
      sgrLoop params (i + 1) { pen with bg := some (.basic (param - 40).toNat) }
    else if param = 48 then
      match readColor i params with
      | .none => .none
      | some (c?, adv) =>
        sgrLoop params (i + adv + 1)
          (match c? with | some col => { pen with bg := some col } | none => pen)
    else if param = 49 then sgrLoop params (i + 1) { pen with bg := none }
    else if param = 58 then
      match readColor i params with
      | .none => .none
      | some (c?, adv) =>
        sgrLoop params (i + adv + 1)
          (match c? with | some col => { pen with ulColor := some col } | none => pen)
    else if param = 59 then sgrLoop params (i + 1) { pen with ulColor := none }
    else if 90 ≤ param ∧ param ≤ 97 then
      sgrLoop params (i + 1) { pen with fg := some (.basic (8 + param - 90).toNat) }
    else if 100 ≤ param ∧ param ≤ 107 then
      sgrLoop params (i + 1) { pen with bg := some (.basic (8 + param - 100).toNat) }
    else sgrLoop params (i + 1) pen
termination_by params.length - i
decreasing_by
  all_goals
    have hi : i < params.length := by
      rcases List.get?_eq_some.mp h with ⟨hlt, -⟩
      exact hlt
    omega

/-- `handleSgr` (src/vt/csi.go), at the pen level: reset on an empty
parameter list, otherwise run the loop over `Params[:ParamsLen]` (the Go
reslicing panics when `ParamsLen` exceeds the slice length). -/
def handleSgr (params : List Int) (paramsLen : Nat) (pen : Style) : Option Style :=
  if paramsLen = 0 then some defaultStyle
  else if params.length < paramsLen then none
  else sgrLoop (params.take paramsLen) 0 pen

/-- The cell claim C9 describes (claim wording, for comparison): a blank
cell styled with the current pen's background only, no other attributes. -/
def bgOnlyCell (pen : Style) : Cell :=
  { spaceCell with style := { defaultStyle with bg := pen.bg } }

/-! ## Definitions used by the claims' statements -/

/-- Marker bytes `<`..`?`. -/
def isMarkerB (c : Nat) : Prop := 0x3C ≤ c ∧ c ≤ 0x3F

/-- Parameter bytes: digits, `:`, `;`. -/
def isParamB (c : Nat) : Prop := (0x30 ≤ c ∧ c ≤ 0x39) ∨ c = 0x3A ∨ c = 0x3B

/-- Intermediate bytes 0x20..0x2F. -/
def isInterB (c : Nat) : Prop := 0x20 ≤ c ∧ c ≤ 0x2F

/-- A complete, valid CSI sequence: a 7-bit `ESC [` or 8-bit CSI introducer,
marker bytes, parameter bytes, intermediate bytes, and a final byte. -/
def ValidCsi (s : List Nat) : Prop :=
  ∃ intro ms ps is f, s = intro ++ ms ++ ps ++ is ++ [f] ∧
    (intro = [ESC, 0x5B] ∨ intro = [CSI]) ∧
    (∀ c ∈ ms, isMarkerB c) ∧ (∀ c ∈ ps, isParamB c) ∧ (∀ c ∈ is, isInterB c) ∧
    0x40 ≤ f ∧ f ≤ 0x7E

/-- A complete, valid two-or-more-byte ESC sequence: `ESC`, intermediate
bytes, and a final byte that does not introduce a CSI/DCS/string sequence. -/
def ValidEsc (s : List Nat) : Prop :=
  ∃ is f, s = ESC :: (is ++ [f]) ∧ (∀ c ∈ is, isInterB c) ∧
    0x30 ≤ f ∧ f ≤ 0x7E ∧ f ∉ ([0x5B, 0x50, 0x5D, 0x58, 0x5E, 0x5F] : List Nat)

/-- Accumulated marker processing: each marker byte overwrites the command's
marker byte. -/
def foldMarker (p : Option Parser) (ms : List Nat) : Option Parser :=
  ms.foldl (fun p c => p.map fun q => { q with cmd := setCmdByte markerShift c q.cmd }) p

/-- Accumulated parameter-byte processing (digits, `:`, `;`), `none` when a
step panics.  Parameter-byte steps do not depend on the buffer or offset, so
they are taken at dummy buffer/offset. -/
def paramsAcc : Option Parser → List Nat → Option (Option Parser)
  | p, [] => some p
  | p, c :: cs =>
    match paramsLogic [] 0 c p with
    | .cont _ p' => paramsAcc p' cs
    | _ => none

/-- Accumulated intermediate processing: each intermediate byte overwrites
the command's intermediate byte. -/
def foldInter (p : Option Parser) (cs : List Nat) : Option Parser :=
  cs.foldl (fun p c => p.map fun q => { q with cmd := setCmdByte intermedShift c q.cmd }) p

/-- Context after a CSI final byte: the last-parameter fixup, then the final
byte recorded in the command. -/
def finalizeCsi (p : Option Parser) (f : Nat) : Option Parser :=
  (p.map incrLastParam).map fun q => { q with cmd := setCmdByte 0 f q.cmd }

/-- Context after an ESC-sequence final byte. -/
def finalizeEsc (p : Option Parser) (f : Nat) : Option Parser :=
  p.map fun q => { q with cmd := setCmdByte 0 f q.cmd }

/-- A byte that is invalid for the scanner's current state, in the sense of
the abort rows of the state table: in `EscapeState` anything that is not an
introducer, intermediate or final byte; in `IntermedState` anything that is
not an intermediate or final byte; in `StringState` a CAN/SUB cancel or an
ESC not starting a two-byte ST. -/
def invalidForState (b : List Nat) (i st c : Nat) : Prop :=
  (st = EscapeState ∧ ¬(c = 0x5B ∨ c = 0x50) ∧ ¬(c = 0x5D ∨ c = 0x58 ∨ c = 0x5E ∨ c = 0x5F) ∧
    ¬(0x20 ≤ c ∧ c ≤ 0x2F) ∧ ¬(0x30 ≤ c ∧ c ≤ 0x7E)) ∨
  (st = IntermedState ∧ ¬(0x20 ≤ c ∧ c ≤ 0x2F) ∧ ¬(0x40 ≤ c ∧ c ≤ 0x7E)) ∨
  (st = StringState ∧ (c = CAN ∨ c = SUB ∨ (c = ESC ∧ hasStIntro (List.drop i b) = false)))

/-- A two-slot, four-byte parser context as created fresh by `NewParser(2, 4)`. -/
def smallParser : Parser := ⟨[missingParam, missingParam], 0, 0, [0, 0, 0, 0], 0⟩

/-- A 1×1 screen holding one marked cell. -/
def markedScreen : ScreenVt := ⟨1, 1, [[⟨"X", 1, defaultStyle⟩]], 0, 0, true, defaultStyle⟩

/-- A pen with only the bold attribute set. -/
def boldPen : Style := { defaultStyle with bold := true }

/-- A 2×1 blank screen whose pen is `boldPen`. -/
def boldScreen : ScreenVt := ⟨2, 1, [[blankCell, blankCell]], 0, 0, true, boldPen⟩

/-- A terminal on the primary screen with the given screens and decoded
command context. -/
def mkTerminal (pri alt : ScreenVt) (ps : List Int) (pl : Nat) (cmd : Nat) : Terminal :=
  ⟨pri, alt, 0, fun _ => .reset, fun _ => .reset, ps, pl, cmd⟩

/-! ## Theorems -/

theorem and255_eq_mod (x : Nat) : x &&& 255 = x % 256 := by
  have h := Nat.and_pow_two_sub_one_eq_mod x 8
  norm_num at h
  exact h

theorem lor_eq_add_of_lt (a b k : Nat) (ha : a < 2 ^ k) : a ||| 2 ^ k * b = a + 2 ^ k * b := by
  have h := Nat.mul_add_lt_is_or (i := k) (b := a) ha b
  rw [Nat.lor_comm, ← h]
  ring

theorem cmd_arith (m i f : Nat) (hm : m < 256) (hi : i < 256) (hf : f < 256) :
    Cmd m i f = f + 256 * m + 65536 * i := by
  unfold Cmd markerShift intermedShift
  rw [and255_eq_mod, and255_eq_mod, and255_eq_mod,
    Nat.mod_eq_of_lt hm, Nat.mod_eq_of_lt hi, Nat.mod_eq_of_lt hf,
    Nat.shiftLeft_eq, Nat.shiftLeft_eq]
  rw [show m * 2 ^ 8 = 2 ^ 8 * m from by ring, lor_eq_add_of_lt f m 8 (by norm_num; omega)]
  rw [show i * 2 ^ 16 = 2 ^ 16 * i from by ring,
    lor_eq_add_of_lt (f + 2 ^ 8 * m) i 16 (by norm_num; omega)]
  norm_num

/-- C8: `Cmd`/`Param` packing round-trips: for every valid marker byte
(0x3C-0x3F or 0), intermediate byte (0x20-0x2F or 0) and final byte
(0x40-0x7E), unpacking `Cmd(m, i, f)` yields exactly `(m, i, f)`; for every
in-range parameter value and has-more flag, `Param` round-trips; and a packed
missing-parameter sentinel reads back as the caller-supplied default. -/
theorem c8_codec_roundtrip :
    (∀ m i f : Nat, (m = 0 ∨ (0x3C ≤ m ∧ m ≤ 0x3F)) → (i = 0 ∨ (0x20 ≤ i ∧ i ≤ 0x2F)) →
      0x40 ≤ f → f ≤ 0x7E →
      cmdMarker (Cmd m i f) = m ∧ cmdIntermediate (Cmd m i f) = i ∧ cmdFinal (Cmd m i f) = f) ∧
    (∀ (p : Int) (hm : Bool) (d : Int), 0 ≤ p → p < 2 ^ 31 - 1 →
      paramValue (Param p hm) d = p ∧ paramHasMore (Param p hm) = hm) ∧
    (∀ (hm : Bool) (d : Int), paramValue (Param missingParam hm) d = d) := by
  refine ⟨fun m i f hm hi hf1 hf2 => ?_, fun p hm d hp0 hp1 => ?_, fun hm d => ?_⟩
  · have hm' : m < 256 := by omega
    have hi' : i < 256 := by omega
    have hf' : f < 256 := by omega
    rw [cmd_arith m i f hm' hi' hf']
    unfold cmdMarker cmdIntermediate cmdFinal markerShift intermedShift
    rw [Nat.shiftRight_eq_div_pow, Nat.shiftRight_eq_div_pow,
      and255_eq_mod, and255_eq_mod, and255_eq_mod]
    norm_num
    omega
  · cases hm with
    | false =>
      refine ⟨?_, ?_⟩
      · simp only [Param, paramValue, missingParam, if_false, Bool.false_eq_true]
        split_ifs <;> omega
      · simp only [Param, paramHasMore, hasMoreFlag, if_false, Bool.false_eq_true,
          Bool.or_eq_false_iff, decide_eq_false_iff_not]
        constructor <;> omega
    | true =>
      refine ⟨?_, ?_⟩
      · simp only [Param, paramValue, missingParam, if_true]
        split_ifs <;> omega
      · simp only [Param, paramHasMore, hasMoreFlag, if_true,
          Bool.or_eq_true, decide_eq_true_eq]
        omega
  · cases hm <;>
      simp only [Param, paramValue, missingParam, if_true, if_false, Bool.false_eq_true] <;>
      split_ifs <;> first | rfl | omega

theorem c8_codec_roundtrip_witness :
    ((0x3C : Nat) = 0 ∨ (0x3C ≤ 0x3C ∧ (0x3C : Nat) ≤ 0x3F)) ∧
    (cmdMarker (Cmd 0x3C 0x24 0x6D) = 0x3C ∧ cmdIntermediate (Cmd 0x3C 0x24 0x6D) = 0x24 ∧
      cmdFinal (Cmd 0x3C 0x24 0x6D) = 0x6D) ∧
    (paramValue (Param 300 true) 1 = 300 ∧ paramHasMore (Param 300 true) = true) ∧
    paramValue (Param missingParam false) 7 = 7 := by
  refine ⟨by decide, ?_, ?_, ?_⟩
  · exact c8_codec_roundtrip.1 0x3C 0x24 0x6D (by decide) (by decide) (by decide) (by decide)
  · exact c8_codec_roundtrip.2.1 300 true 1 (by decide) (by decide)
  · exact c8_codec_roundtrip.2.2 false 7

/-- C7: the X10 mouse decoder computes `x = raw_x_byte − 33` and
`y = raw_y_byte − 33` as signed arithmetic over the wire bytes with no
wraparound correction, and decoding the encoding of `x = 250, y = 223`
(each stored as value+33 modulo 256, motion flag set) yields exactly
`x = −6, y = −33`. -/
theorem c7_x10_wraparound :
    (∀ b3 b4 b5 : Nat,
      (parseX10MouseEvent [ESC, 0x5B, 0x4D, b3, b4, b5]).x = (b4 : Int) - 33 ∧
      (parseX10MouseEvent [ESC, 0x5B, 0x4D, b3, b4, b5]).y = (b5 : Int) - 33) ∧
    parseX10MouseEvent (encodeX10 0x20 250 223) =
      .motion (-6) (-33) .left ⟨false, false, false⟩ := by
  refine ⟨fun b3 b4 b5 => ?_, by decide⟩
  simp only [parseX10MouseEvent, List.getD, List.get?, Option.getD]
  constructor <;> (repeat' split) <;> rfl

/-- C3 (refuting evaluation): feeding `ESC [ 1;1;1 m` to a parser context
with two parameter slots makes `DecodeSequence` index `params[2]` out of
range — a Go runtime panic, modelled as `none` — instead of silently
dropping the excess parameter. -/
theorem c3_params_overflow_panic :
    DecodeSequence [ESC, 0x5B, 0x31, 0x3B, 0x31, 0x3B, 0x31, 0x6D] NormalState
      (some smallParser) = none := by decide

theorem clamp_bounds (v lo hi : Int) (h : lo ≤ hi) :
    lo ≤ clamp v lo hi ∧ clamp v lo hi ≤ hi := by
  simp only [clamp, min_def, max_def]
  split_ifs <;> omega

theorem scr_setScr (t : Terminal) (s : ScreenVt) : (t.setScr s).scr = s := by
  by_cases h : t.active = 1 <;> simp [Terminal.scr, Terminal.setScr, h]

theorem cursorTarget_isSome (t : Terminal) (n : Int)
    (hp : t.parserParamsLen ≤ t.parserParams.length) :
    (cursorTarget t n).isSome := by
  unfold cursorTarget
  by_cases h2 : 2 ≤ t.parserParamsLen
  · have h0 : 0 < t.parserParams.length := by omega
    have h1 : 1 < t.parserParams.length := by omega
    rw [List.get?_eq_get h0, List.get?_eq_get h1]
    repeat' split
    all_goals rfl
  · repeat' split
    all_goals first
      | rfl
      | exact absurd ‹2 ≤ t.parserParamsLen› h2

theorem cursorTarget_dims (t : Terminal) (n : Int) (s : ScreenVt) (x y : Int)
    (h : cursorTarget t n = some (s, x, y)) :
    s.width = t.scr.width ∧ s.height = t.scr.height := by
  unfold cursorTarget at h
  repeat' split at h
  all_goals simp only [Option.some.injEq, Prod.mk.injEq, reduceCtorEq] at h
  all_goals obtain ⟨h1, -, -⟩ := h
  all_goals rw [← h1]
  all_goals exact ⟨rfl, rfl⟩

/-- C4: every cursor-motion command (final bytes A,B,C,D,E,F,G,H,I,X,d,e,f),
whatever the count or row/column parameter values, leaves the cursor within
`[0, width-1] × [0, height-1]` of the active screen. -/
theorem c4_cursor_clamped (t : Terminal)
    (hw : 0 < t.scr.width) (hh : 0 < t.scr.height)
    (hp : t.parserParamsLen ≤ t.parserParams.length)
    (_hc : cmdFinal t.parserCmd ∈
      ([0x41, 0x42, 0x43, 0x44, 0x45, 0x46, 0x47, 0x48, 0x49, 0x58, 0x64, 0x65, 0x66] : List Nat)) :
    ∃ t', handleCursor t = some t' ∧
      0 ≤ t'.scr.curX ∧ t'.scr.curX < t.scr.width ∧
      0 ≤ t'.scr.curY ∧ t'.scr.curY < t.scr.height := by
  unfold handleCursor
  have hread : ∃ n, (if 0 < t.parserParamsLen then t.parserParams.get? 0 else some 1) = some n := by
    by_cases h0 : 0 < t.parserParamsLen
    · have hl0 : 0 < t.parserParams.length := by omega
      rw [if_pos h0, List.get?_eq_get hl0]
      exact ⟨_, rfl⟩
    · exact ⟨1, by rw [if_neg h0]⟩
  obtain ⟨n, hn⟩ := hread
  rw [hn, Option.some_bind]
  obtain ⟨⟨s, x, y⟩, hct⟩ := Option.isSome_iff_exists.mp (cursorTarget_isSome t n hp)
  obtain ⟨hsw, hsh⟩ := cursorTarget_dims t n s x y hct
  rw [hct, Option.map_some']
  refine ⟨_, rfl, ?_⟩
  rw [scr_setScr]
  have hx := clamp_bounds x 0 ((s.width : Int) - 1) (by omega)
  have hy := clamp_bounds y 0 ((s.height : Int) - 1) (by omega)
  simp only [moveCursor]
  refine ⟨hx.1, ?_, hy.1, ?_⟩ <;> omega

theorem c4_cursor_clamped_witness :
    0 < (mkTerminal boldScreen boldScreen [9999] 1 0x42).scr.width ∧
    (∃ t', handleCursor (mkTerminal boldScreen boldScreen [9999] 1 0x42) = some t' ∧
      0 ≤ t'.scr.curX ∧
      t'.scr.curX < (mkTerminal boldScreen boldScreen [9999] 1 0x42).scr.width ∧
      0 ≤ t'.scr.curY ∧
      t'.scr.curY < (mkTerminal boldScreen boldScreen [9999] 1 0x42).scr.height) :=
  ⟨by decide,
    c4_cursor_clamped (mkTerminal boldScreen boldScreen [9999] 1 0x42)
      (by decide) (by decide) (by decide) (by decide)⟩

/-- C5 (amended): setting DEC private mode 1049 (`CSI ? 1049 h`) switches the
active screen pointer to the alternate slot and clears the alternate screen;
resetting it (`CSI ? 1049 l`) switches back to the primary slot without
clearing either screen.  DEC private mode 1047 only switches the active
screen pointer, in both directions, without clearing anything. -/
theorem c5_alt_screen_amended :
    (∀ (t : Terminal) (v : Int), t.parserParamsLen ≠ 0 → t.parserParams.get? 0 = some v →
      maskParam v = 1049 → cmdMarker t.parserCmd = 0x3F → cmdFinal t.parserCmd = 0x68 →
      ∃ t', handleMode t = some t' ∧ t'.active = 1 ∧
        t'.alternate = clearScreen t.alternate ∧ t'.primary = t.primary) ∧
    (∀ (t : Terminal) (v : Int), t.parserParamsLen ≠ 0 → t.parserParams.get? 0 = some v →
      maskParam v = 1049 → cmdMarker t.parserCmd = 0x3F → cmdFinal t.parserCmd = 0x6C →
      ∃ t', handleMode t = some t' ∧ t'.active = 0 ∧
        t'.primary = t.primary ∧ t'.alternate = t.alternate) ∧
    (∀ (t : Terminal) (v : Int), t.parserParamsLen ≠ 0 → t.parserParams.get? 0 = some v →
      maskParam v = 1047 → cmdMarker t.parserCmd = 0x3F → cmdFinal t.parserCmd = 0x68 →
      ∃ t', handleMode t = some t' ∧ t'.active = 1 ∧
        t'.primary = t.primary ∧ t'.alternate = t.alternate) ∧
    (∀ (t : Terminal) (v : Int), t.parserParamsLen ≠ 0 → t.parserParams.get? 0 = some v →
      maskParam v = 1047 → cmdMarker t.parserCmd = 0x3F → cmdFinal t.parserCmd = 0x6C →
      ∃ t', handleMode t = some t' ∧ t'.active = 0 ∧
        t'.primary = t.primary ∧ t'.alternate = t.alternate) := by
  refine ⟨?_, ?_, ?_, ?_⟩ <;>
    (intro t v hlen h0 hmask hmark hfin
     unfold handleMode
     rw [if_neg hlen, h0, Option.map_some']
     refine ⟨_, rfl, ?_⟩
     unfold handleModeWith handleDecMode modeSettingOf
     rw [hmask, hmark, hfin]
     norm_num [Terminal.setScr, Terminal.scr]
     all_goals try exact ⟨rfl, rfl, rfl⟩)

theorem c5_alt_screen_amended_witness :
    (mkTerminal markedScreen markedScreen [1049] 1 (0x68 ||| (0x3F <<< 8))).parserParamsLen ≠ 0 ∧
    (∃ t', handleMode (mkTerminal markedScreen markedScreen [1049] 1 (0x68 ||| (0x3F <<< 8))) =
        some t' ∧ t'.active = 1 ∧
      t'.alternate = clearScreen markedScreen ∧ t'.primary = markedScreen) :=
  ⟨by decide,
    c5_alt_screen_amended.1 (mkTerminal markedScreen markedScreen [1049] 1 (0x68 ||| (0x3F <<< 8)))
      1049 (by decide) rfl (by decide) (by decide) (by decide)⟩

/-- C5 (counterexample): with the alternate screen holding a marked cell,
`CSI ? 1047 h` switches to the alternate screen but does not clear it,
refuting the claim that 1047 has the same clear-on-enter behavior as 1049. -/
theorem c5_counterexample :
    (handleMode (mkTerminal markedScreen markedScreen [1047] 1 (0x68 ||| (0x3F <<< 8)))).map
        (fun t => (t.active, t.alternate.grid)) =
      some (1, [[⟨"X", 1, defaultStyle⟩]]) ∧
    ([[(⟨"X", 1, defaultStyle⟩ : Cell)]]) ≠ (clearScreen markedScreen).grid := by
  exact ⟨rfl, by decide⟩

/-- C9 (amended): the erase-character command (`CSI n X`) fills `n` cells
from the cursor with a blank cell styled with the entire current pen, and
advances the cursor x position by `n`, clamped into `[0, width-1]`. -/
theorem c9_ech_amended (t : Terminal) (n : Int)
    (hw : 0 < t.scr.width)
    (hcmd : cmdFinal t.parserCmd = 0x58)
    (hlen : 0 < t.parserParamsLen)
    (h0 : t.parserParams.get? 0 = some n) :
    ∃ t', handleCursor t = some t' ∧
      t'.scr.grid = (fillScreen (echCell t.scr.pen) ⟨t.scr.curX, t.scr.curY, n, 1⟩ t.scr).grid ∧
      t'.scr.curX = clamp (t.scr.curX + n) 0 ((t.scr.width : Int) - 1) ∧
      t'.scr.curY = clamp t.scr.curY 0 ((t.scr.height : Int) - 1) := by
  unfold handleCursor
  rw [if_pos hlen, h0, Option.some_bind]
  have hct : cursorTarget t n =
      some (fillScreen (echCell t.scr.pen) ⟨t.scr.curX, t.scr.curY, n, 1⟩ t.scr,
        min ((t.scr.width : Int) - 1) (t.scr.curX + n), t.scr.curY) := by
    unfold cursorTarget
    rw [hcmd]
  rw [hct, Option.map_some']
  refine ⟨_, rfl, ?_, ?_, ?_⟩
  · rw [scr_setScr]
    rfl
  · rw [scr_setScr]
    show clamp (min ((t.scr.width : Int) - 1) (t.scr.curX + n)) 0 ((t.scr.width : Int) - 1) =
      clamp (t.scr.curX + n) 0 ((t.scr.width : Int) - 1)
    simp only [clamp, min_def, max_def]
    split_ifs <;> omega
  · rw [scr_setScr]
    rfl

theorem c9_ech_amended_witness :
    0 < (mkTerminal boldScreen boldScreen [1] 1 0x58).scr.width ∧
    (∃ t', handleCursor (mkTerminal boldScreen boldScreen [1] 1 0x58) = some t' ∧
      t'.scr.grid = (fillScreen (echCell (mkTerminal boldScreen boldScreen [1] 1 0x58).scr.pen)
        ⟨(mkTerminal boldScreen boldScreen [1] 1 0x58).scr.curX,
          (mkTerminal boldScreen boldScreen [1] 1 0x58).scr.curY, 1, 1⟩
        (mkTerminal boldScreen boldScreen [1] 1 0x58).scr).grid ∧
      t'.scr.curX = clamp ((mkTerminal boldScreen boldScreen [1] 1 0x58).scr.curX + 1) 0
        (((mkTerminal boldScreen boldScreen [1] 1 0x58).scr.width : Int) - 1) ∧
      t'.scr.curY = clamp (mkTerminal boldScreen boldScreen [1] 1 0x58).scr.curY 0
        (((mkTerminal boldScreen boldScreen [1] 1 0x58).scr.height : Int) - 1)) :=
  ⟨by decide,
    c9_ech_amended (mkTerminal boldScreen boldScreen [1] 1 0x58) 1
      (by decide) (by decide) (by decide) rfl⟩

/-- C9 (counterexample): with a bold pen, ECH fills the cell with the whole
pen (bold included), not with the pen's background only as the claim
states. -/
theorem c9_counterexample :
    (handleCursor (mkTerminal boldScreen boldScreen [1] 1 0x58)).map (fun t => t.scr.grid) =
      some [[⟨" ", 1, boldPen⟩, blankCell]] ∧
    (⟨" ", 1, boldPen⟩ : Cell) ≠ bgOnlyCell boldPen := by
  exact ⟨rfl, by decide⟩

/-- C6 (refuting evaluations): truncated extended-color SGR parameter groups
make the interpreter read past the parameter slice — a Go runtime panic,
modelled as `none` — instead of being silently ignored: a trailing `38`, a
`38;5` missing its index, and a `38;2;r;g` missing its blue component all
panic. -/
theorem c6_truncated_color_panics :
    handleSgr [38, 0] 1 defaultStyle = none ∧
    handleSgr [38, 5] 2 defaultStyle = none ∧
    handleSgr [38, 2, 10, 20] 4 defaultStyle = none := by
  refine ⟨?_, ?_, ?_⟩ <;>
    simp [handleSgr, sgrLoop, readColor, maskParam, hasMoreFlag, missingParam]

theorem intermedLogic_ret_n (b : List Nat) (i c : Nat) (p : Option Parser) (r : DecodeResult)
    (h : intermedLogic b i c p = .ret r) : r.n = i ∨ r.n = i + 1 := by
  unfold intermedLogic at h
  repeat' split at h
  all_goals simp only [StepOut.ret.injEq, reduceCtorEq] at h
  all_goals rw [← h]
  all_goals first
    | (left; rfl)
    | (right; rfl)

theorem paramsLogic_ret_n (b : List Nat) (i c : Nat) (p : Option Parser) (r : DecodeResult)
    (h : paramsLogic b i c p = .ret r) : r.n = i ∨ r.n = i + 1 := by
  unfold paramsLogic at h
  repeat' split at h
  all_goals first
    | exact intermedLogic_ret_n b i c p r h
    | simp only [reduceCtorEq] at h

theorem markerLogic_ret_n (b : List Nat) (i c : Nat) (p : Option Parser) (r : DecodeResult)
    (h : markerLogic b i c p = .ret r) : r.n = i ∨ r.n = i + 1 := by
  unfold markerLogic at h
  split at h
  · simp only [reduceCtorEq] at h
  · exact paramsLogic_ret_n b i c p r h

theorem escapeLogic_ret_n (b : List Nat) (i c : Nat) (p : Option Parser) (r : DecodeResult)
    (h : escapeLogic b i c p = .ret r) : r.n = i ∨ r.n = i + 1 := by
  unfold escapeLogic at h
  repeat' split at h
  all_goals simp only [StepOut.ret.injEq, reduceCtorEq] at h
  all_goals rw [← h]
  all_goals first
    | (left; rfl)
    | (right; rfl)

theorem stringLogic_ret_n (b : List Nat) (i c : Nat) (p : Option Parser) (r : DecodeResult)
    (h : stringLogic b i c p = .ret r) :
    r.n = i ∨ r.n = i + 1 ∨ (r.n = i + 2 ∧ c = ESC ∧ hasStIntro (b.drop i) = true) := by
  unfold stringLogic at h
  repeat' split at h
  all_goals simp only [StepOut.ret.injEq, reduceCtorEq] at h
  all_goals rw [← h]
  all_goals first
    | (left; rfl)
    | (right; left; rfl)
    | (right; right; exact ⟨rfl, by assumption, by assumption⟩)

theorem normalLogic_ret_n (b : List Nat) (i c : Nat) (p : Option Parser) (r : DecodeResult)
    (h : normalLogic b i c p = .ret r) :
    r.n = 1 ∨ r.n = i + (firstGrapheme b).1 ∨
      (r.n = i ∧ 0xC0 ≤ c ∧ runeStart c = false) := by
  unfold normalLogic at h
  simp only [US, DEL] at h
  repeat' split at h
  all_goals simp only [StepOut.ret.injEq, reduceCtorEq] at h
  all_goals rw [← h]
  all_goals first
    | (left; rfl)
    | (right; left; rfl)
    | (right; right;
        refine ⟨rfl, by omega, by simp_all⟩)

theorem decodeStep_ret_n (b : List Nat) (i c st : Nat) (p : Option Parser) (r : DecodeResult)
    (h : decodeStep b i c st p = .ret r) :
    r.n = i ∨ r.n = i + 1 ∨ (r.n = i + 2 ∧ c = ESC ∧ hasStIntro (b.drop i) = true) ∨
      (st = NormalState ∧
        (r.n = 1 ∨ r.n = i + (firstGrapheme b).1 ∨
          (r.n = i ∧ 0xC0 ≤ c ∧ runeStart c = false))) := by
  unfold decodeStep at h
  split_ifs at h with h1 h2 h3 h4 h5 h6
  · exact Or.inr (Or.inr (Or.inr ⟨h1, normalLogic_ret_n b i c p r h⟩))
  · rcases markerLogic_ret_n b i c p r h with h' | h' <;> simp [h']
  · rcases paramsLogic_ret_n b i c p r h with h' | h' <;> simp [h']
  · rcases intermedLogic_ret_n b i c p r h with h' | h' <;> simp [h']
  · rcases escapeLogic_ret_n b i c p r h with h' | h' <;> simp [h']
  · rcases stringLogic_ret_n b i c p r h with h' | h' | h' <;> simp [h']
  all_goals simp only [reduceCtorEq] at h

theorem intermedLogic_cont_st (b : List Nat) (i c : Nat) (p : Option Parser)
    (st' : Nat) (p' : Option Parser) (h : intermedLogic b i c p = .cont st' p') :
    st' = IntermedState ∨ st' = StringState := by
  unfold intermedLogic at h
  repeat' split at h
  all_goals simp only [StepOut.cont.injEq, reduceCtorEq] at h
  all_goals obtain ⟨hst, -⟩ := h
  all_goals rw [← hst]
  all_goals decide

theorem paramsLogic_cont_st (b : List Nat) (i c : Nat) (p : Option Parser)
    (st' : Nat) (p' : Option Parser) (h : paramsLogic b i c p = .cont st' p') :
    st' = ParamsState ∨ st' = IntermedState ∨ st' = StringState := by
  unfold paramsLogic at h
  split_ifs at h with hd hc hs
  · repeat' split at h
    all_goals simp only [StepOut.cont.injEq, reduceCtorEq] at h
    all_goals obtain ⟨hst, -⟩ := h
    all_goals rw [← hst]
    all_goals decide
  · repeat' split at h
    all_goals simp only [StepOut.cont.injEq, reduceCtorEq] at h
    all_goals obtain ⟨hst, -⟩ := h
    all_goals rw [← hst]
    all_goals decide
  · simp only [StepOut.cont.injEq] at h
    obtain ⟨hst, -⟩ := h
    rw [← hst]
    decide
  · rcases intermedLogic_cont_st b i c p st' p' h with h' | h' <;> simp [h']

theorem markerLogic_cont_st (b : List Nat) (i c : Nat) (p : Option Parser)
    (st' : Nat) (p' : Option Parser) (h : markerLogic b i c p = .cont st' p') :
    st' = MarkerState ∨ st' = ParamsState ∨ st' = IntermedState ∨ st' = StringState := by
  unfold markerLogic at h
  split at h
  · simp only [StepOut.cont.injEq] at h
    obtain ⟨hst, -⟩ := h
    rw [← hst]
    decide
  · rcases paramsLogic_cont_st b i c p st' p' h with h' | h' | h' <;> simp [h']

theorem escapeLogic_cont_st (b : List Nat) (i c : Nat) (p : Option Parser)
    (st' : Nat) (p' : Option Parser) (h : escapeLogic b i c p = .cont st' p') :
    st' = MarkerState ∨ st' = StringState ∨ st' = EscapeState := by
  unfold escapeLogic at h
  repeat' split at h
  all_goals simp only [StepOut.cont.injEq, reduceCtorEq] at h
  all_goals obtain ⟨hst, -⟩ := h
  all_goals rw [← hst]
  all_goals decide

theorem stringLogic_cont_st (b : List Nat) (i c : Nat) (p : Option Parser)
    (st' : Nat) (p' : Option Parser) (h : stringLogic b i c p = .cont st' p') :
    st' = StringState := by
  unfold stringLogic at h
  repeat' split at h
  all_goals simp only [StepOut.cont.injEq, reduceCtorEq] at h
  all_goals obtain ⟨hst, -⟩ := h
  all_goals rw [← hst]

theorem normalLogic_cont_st (b : List Nat) (i c : Nat) (p : Option Parser)
    (st' : Nat) (p' : Option Parser) (h : normalLogic b i c p = .cont st' p') :
    st' = EscapeState ∨ st' = MarkerState ∨ st' = StringState := by
  unfold normalLogic at h
  repeat' split at h
  all_goals simp only [StepOut.cont.injEq, reduceCtorEq] at h
  all_goals obtain ⟨hst, -⟩ := h
  all_goals rw [← hst]
  all_goals decide

theorem decodeStep_cont_ne_normal (b : List Nat) (i c st : Nat) (p : Option Parser)
    (st' : Nat) (p' : Option Parser) (h : decodeStep b i c st p = .cont st' p') :
    st' ≠ NormalState := by
  unfold decodeStep at h
  split_ifs at h with h1 h2 h3 h4 h5 h6
  · rcases normalLogic_cont_st b i c p st' p' h with h' | h' | h' <;> simp [h', NormalState,
      EscapeState, MarkerState, StringState]
  · rcases markerLogic_cont_st b i c p st' p' h with h' | h' | h' | h' <;> simp [h',
      NormalState, MarkerState, ParamsState, IntermedState, StringState]
  · rcases paramsLogic_cont_st b i c p st' p' h with h' | h' | h' <;> simp [h',
      NormalState, ParamsState, IntermedState, StringState]
  · rcases intermedLogic_cont_st b i c p st' p' h with h' | h' <;> simp [h',
      NormalState, IntermedState, StringState]
  · rcases escapeLogic_cont_st b i c p st' p' h with h' | h' | h' <;> simp [h',
      NormalState, MarkerState, StringState, EscapeState]
  · rw [stringLogic_cont_st b i c p st' p' h]
    simp [NormalState, StringState]
  · simp only [StepOut.cont.injEq] at h
    obtain ⟨hst, -⟩ := h
    rw [← hst]
    exact h1

theorem runeStart_of_byte (c : Nat) (h1 : 0xC0 ≤ c) (h2 : c < 256) : runeStart c = true := by
  revert h1 h2
  revert c
  decide

theorem firstGrapheme_bounds (c : Nat) (rest : List Nat) :
    1 ≤ (firstGrapheme (c :: rest)).1 ∧ (firstGrapheme (c :: rest)).1 ≤ (c :: rest).length := by
  simp only [firstGrapheme, List.length_cons, min_def]
  split_ifs <;> constructor <;> omega

theorem drop_cons_succ (b : List Nat) (i : Nat) (c : Nat) (rest : List Nat)
    (h : b.drop i = c :: rest) : b.drop (i + 1) = rest := by
  have h2 := List.drop_drop 1 i b
  rw [h] at h2
  simpa using h2.symm

theorem decodeLoop_n_le (b : List Nat) (hb : ∀ c ∈ b, c < 256) :
    ∀ (rest : List Nat) (i st : Nat) (p : Option Parser) (r : DecodeResult),
      b.drop i = rest → (st = NormalState → i = 0) →
      decodeLoop b rest i st p = some r → r.n ≤ b.length := by
  intro rest
  induction rest with
  | nil =>
    intro i st p r _ _ h
    unfold decodeLoop at h
    simp only [Option.some.injEq] at h
    rw [← h]
  | cons c rest ih =>
    intro i st p r hdrop hnorm h
    have hi : i < b.length := by
      by_contra hcon
      rw [List.drop_eq_nil_of_le (by omega)] at hdrop
      exact List.noConfusion hdrop
    unfold decodeLoop at h
    rcases hstep : decodeStep b i c st p with ⟨st', p'⟩ | r' | _ <;> rw [hstep] at h
    · exact ih (i + 1) st' p' r (drop_cons_succ b i c rest hdrop)
        (fun habs => absurd habs (decodeStep_cont_ne_normal b i c st p st' p' hstep)) h
    · simp only [Option.some.injEq] at h
      subst h
      rcases decodeStep_ret_n b i c st p r' hstep with h' | h' | ⟨h', hesc, hst⟩ | ⟨hn, h'⟩
      · omega
      · omega
      · rw [hdrop] at hst
        rcases rest with _ | ⟨c1, rest'⟩
        · subst hesc
          simp [hasStIntro, ESC, STC] at hst
        · have : i + 2 ≤ b.length := by
            by_contra hcon
            have h2 : b.drop (i + 1) = c1 :: rest' := drop_cons_succ b i c _ hdrop
            have : b.length ≤ i + 1 := by omega
            rw [List.drop_eq_nil_of_le this] at h2
            exact List.noConfusion h2
          omega
      · rcases h' with h1 | h1 | ⟨h1, -, -⟩
        · omega
        · have hi0 : i = 0 := hnorm hn
          subst hi0
          have hb0 : b = c :: rest := by simpa using hdrop
          rw [hb0] at h1 ⊢
          have := (firstGrapheme_bounds c rest).2
          simp only [List.length_cons] at this ⊢
          omega
        · omega
    · exact Option.noConfusion h

theorem decodeLoop_n_ge (b : List Nat) (hlen : 1 ≤ b.length) :
    ∀ (rest : List Nat) (i st : Nat) (p : Option Parser) (r : DecodeResult),
      1 ≤ i → decodeLoop b rest i st p = some r → 1 ≤ r.n := by
  intro rest
  induction rest with
  | nil =>
    intro i st p r _ h
    unfold decodeLoop at h
    simp only [Option.some.injEq] at h
    rw [← h]
    exact hlen
  | cons c rest ih =>
    intro i st p r hi h
    unfold decodeLoop at h
    rcases hstep : decodeStep b i c st p with ⟨st', p'⟩ | r' | _ <;> rw [hstep] at h
    · exact ih (i + 1) st' p' r (by omega) h
    · simp only [Option.some.injEq] at h
      subst h
      rcases decodeStep_ret_n b i c st p r' hstep with h' | h' | ⟨h', -, -⟩ | ⟨-, h'⟩
      · omega
      · omega
      · omega
      · rcases h' with h1 | h1 | ⟨h1, -, -⟩ <;> omega
    · exact Option.noConfusion h

/-- C10: `DecodeSequence` always consumes at most the buffer; from
`NormalState` on a nonempty byte buffer it consumes at least one byte (the
zero-progress invalid-UTF-8 return is unreachable, every byte ≥ 0xC0 passing
the rune-start test), so a caller advancing by the returned count always
makes progress and terminates. -/
theorem c10_progress (b : List Nat) (st : Nat) (p : Option Parser)
    (hb : ∀ c ∈ b, c < 256) :
    (∀ r, DecodeSequence b st p = some r → r.n ≤ b.length) ∧
    (st = NormalState → b ≠ [] → ∀ r, DecodeSequence b st p = some r → 1 ≤ r.n) := by
  constructor
  · intro r h
    exact decodeLoop_n_le b hb b 0 st p r (List.drop_zero b) (fun _ => rfl) h
  · intro hst hne r h
    subst hst
    rcases hb' : b with _ | ⟨c, rest⟩
    · exact absurd hb' hne
    rw [hb'] at h
    unfold DecodeSequence decodeLoop at h
    rcases hstep : decodeStep (c :: rest) 0 c NormalState p with ⟨st', p'⟩ | r' | _
    · rw [hstep] at h
      exact decodeLoop_n_ge (c :: rest) (by simp) rest 1 st' p' r (by omega) h
    · rw [hstep] at h
      simp only [Option.some.injEq] at h
      subst h
      have hcbyte : c < 256 := by
        apply hb
        rw [hb']
        simp
      have hnl : normalLogic (c :: rest) 0 c p = .ret r' := by
        rw [← hstep]
        rfl
      rcases normalLogic_ret_n (c :: rest) 0 c p r' hnl with h' | h' | ⟨-, hge, hrs⟩
      · omega
      · have := (firstGrapheme_bounds c rest).1
        omega
      · rw [runeStart_of_byte c hge hcbyte] at hrs
        exact Bool.noConfusion hrs
    · rw [hstep] at h
      exact Option.noConfusion h

theorem c10_progress_witness :
    (∀ c ∈ [(0x41 : Nat)], c < 256) ∧
    ((⟨1, 1, NormalState, none⟩ : DecodeResult).n ≤ ([(0x41 : Nat)]).length ∧
      1 ≤ (⟨1, 1, NormalState, none⟩ : DecodeResult).n) :=
  ⟨by decide,
    (c10_progress [0x41] NormalState none (by decide)).1 ⟨1, 1, NormalState, none⟩ rfl,
    (c10_progress [0x41] NormalState none (by decide)).2 rfl (by decide)
      ⟨1, 1, NormalState, none⟩ rfl⟩

theorem get?_drop_cons (b : List Nat) (i c : Nat) (hc : b.get? i = some c) :
    b.drop i = c :: b.drop (i + 1) := by
  obtain ⟨hi, hget⟩ := List.get?_eq_some.mp hc
  rw [List.drop_eq_getElem_cons hi]
  simp only [List.get_eq_getElem] at hget
  rw [hget]

theorem reaches_factor (b : List Nat) (st0 : Nat) (p0 : Option Parser)
    (i st : Nat) (p : Option Parser) (hr : Reaches b st0 p0 i st p) :
    DecodeSequence b st0 p0 = decodeLoop b (b.drop i) i st p := by
  induction hr with
  | refl => rw [List.drop_zero]; rfl
  | step hr hget hstep ih =>
    rw [ih, get?_drop_cons b _ _ hget]
    conv_lhs => unfold decodeLoop
    rw [hstep]

/-- C2: whenever the scanner reaches a byte that is invalid for its current
state (in `EscapeState`, `IntermedState` or `StringState`), the call aborts
returning exactly the offset of the invalid byte as the consumed count — the
invalid byte itself is not consumed — together with `NormalState`, so the
next call starts at the offending byte from `NormalState`. -/
theorem c2_abort_unconsumed (b : List Nat) (st0 : Nat) (p0 : Option Parser)
    (i st : Nat) (p : Option Parser) (c : Nat)
    (hr : Reaches b st0 p0 i st p) (hc : b.get? i = some c)
    (hinv : invalidForState b i st c) :
    ∃ p', DecodeSequence b st0 p0 = some ⟨0, i, NormalState, p'⟩ := by
  rw [reaches_factor b st0 p0 i st p hr, get?_drop_cons b i c hc]
  unfold decodeLoop
  rcases hinv with ⟨hst, h1, h2, h3, h4⟩ | ⟨hst, h1, h2⟩ | ⟨hst, hcc⟩
  · subst hst
    have hstep : decodeStep b i c EscapeState p = .ret ⟨0, i, NormalState, p⟩ := by
      unfold decodeStep escapeLogic
      norm_num [EscapeState, NormalState, MarkerState, ParamsState, IntermedState, StringState]
      rw [if_neg h1, if_neg h2, if_neg h3, if_neg h4]
    rw [hstep]
    exact ⟨p, rfl⟩
  · subst hst
    have hstep : decodeStep b i c IntermedState p =
        .ret ⟨0, i, NormalState, p.map incrLastParam⟩ := by
      unfold decodeStep intermedLogic
      norm_num [IntermedState, NormalState, MarkerState, ParamsState, EscapeState, StringState]
      rw [if_neg h1, if_neg h2]
    rw [hstep]
    exact ⟨p.map incrLastParam, rfl⟩
  · subst hst
    rcases hcc with hv | hv | ⟨hv, hstf⟩
    · subst hv
      have hstep : decodeStep b i CAN StringState p =
          .ret ⟨0, i, NormalState, if hasOscIntro b then parseOscCmd p else p⟩ := by
        unfold decodeStep stringLogic
        norm_num [StringState, NormalState, MarkerState, ParamsState, IntermedState,
          EscapeState, CAN, BEL, SUB, STC, ESC]
      rw [hstep]
      exact ⟨_, rfl⟩
    · subst hv
      have hstep : decodeStep b i SUB StringState p =
          .ret ⟨0, i, NormalState, if hasOscIntro b then parseOscCmd p else p⟩ := by
        unfold decodeStep stringLogic
        norm_num [StringState, NormalState, MarkerState, ParamsState, IntermedState,
          EscapeState, CAN, BEL, SUB, STC, ESC]
      rw [hstep]
      exact ⟨_, rfl⟩
    · subst hv
      have hstep : decodeStep b i ESC StringState p = .ret ⟨0, i, NormalState, p⟩ := by
        unfold decodeStep stringLogic
        norm_num [StringState, NormalState, MarkerState, ParamsState, IntermedState,
          EscapeState, CAN, BEL, SUB, STC, ESC]
        try rw [hstf]
        try norm_num
      rw [hstep]
      exact ⟨p, rfl⟩

theorem c2_abort_unconsumed_witness :
    ∃ p', DecodeSequence [ESC, 0x5B, 0x20, 0x01] NormalState none =
      some ⟨0, 3, NormalState, p'⟩ := by
  have h1 : Reaches [ESC, 0x5B, 0x20, 0x01] NormalState none 1 EscapeState none :=
    .step .refl rfl rfl
  have h2 : Reaches [ESC, 0x5B, 0x20, 0x01] NormalState none 2 MarkerState none :=
    .step h1 rfl rfl
  have h3 : Reaches [ESC, 0x5B, 0x20, 0x01] NormalState none 3 IntermedState none :=
    .step h2 rfl rfl
  exact c2_abort_unconsumed [ESC, 0x5B, 0x20, 0x01] NormalState none 3 IntermedState none
    0x01 h3 rfl (Or.inr (Or.inl ⟨rfl, by decide, by decide⟩))

theorem decodeLoop_cons_cont (b : List Nat) (c : Nat) (rest : List Nat) (i st : Nat)
    (p : Option Parser) (st' : Nat) (p' : Option Parser)
    (h : decodeStep b i c st p = .cont st' p') :
    decodeLoop b (c :: rest) i st p = decodeLoop b rest (i + 1) st' p' := by
  conv_lhs => unfold decodeLoop
  rw [h]

theorem decodeLoop_cons_ret (b : List Nat) (c : Nat) (rest : List Nat) (i st : Nat)
    (p : Option Parser) (r : DecodeResult) (h : decodeStep b i c st p = .ret r) :
    decodeLoop b (c :: rest) i st p = some r := by
  conv_lhs => unfold decodeLoop
  rw [h]

theorem decodeLoop_cons_panic (b : List Nat) (c : Nat) (rest : List Nat) (i st : Nat)
    (p : Option Parser) (h : decodeStep b i c st p = .panic) :
    decodeLoop b (c :: rest) i st p = none := by
  conv_lhs => unfold decodeLoop
  rw [h]

theorem decodeLoop_nil (b : List Nat) (i st : Nat) (p : Option Parser) :
    decodeLoop b [] i st p = some ⟨0, b.length, st, p⟩ := rfl

theorem step_normal_esc (b : List Nat) (i : Nat) (p : Option Parser) :
    decodeStep b i ESC NormalState p = .cont EscapeState (p.map resetCtx) := rfl

theorem step_normal_csi8 (b : List Nat) (i : Nat) (p : Option Parser) :
    decodeStep b i CSI NormalState p = .cont MarkerState (p.map resetCtx) := rfl

theorem step_escape_lbrack (b : List Nat) (i : Nat) (p : Option Parser) :
    decodeStep b i 0x5B EscapeState p = .cont MarkerState (p.map resetCtxEsc) := rfl

theorem decodeStep_markerState (b : List Nat) (i c : Nat) (p : Option Parser) :
    decodeStep b i c MarkerState p = markerLogic b i c p := rfl

theorem decodeStep_paramsState (b : List Nat) (i c : Nat) (p : Option Parser) :
    decodeStep b i c ParamsState p = paramsLogic b i c p := rfl

theorem decodeStep_intermedState (b : List Nat) (i c : Nat) (p : Option Parser) :
    decodeStep b i c IntermedState p = intermedLogic b i c p := rfl

theorem decodeStep_escapeState (b : List Nat) (i c : Nat) (p : Option Parser) :
    decodeStep b i c EscapeState p = escapeLogic b i c p := rfl

theorem step_marker (b : List Nat) (i c : Nat) (p : Option Parser) (hc : isMarkerB c) :
    decodeStep b i c MarkerState p =
      .cont MarkerState (p.map fun q => { q with cmd := setCmdByte markerShift c q.cmd }) := by
  have hc' : 0x3C ≤ c ∧ c ≤ 0x3F := hc
  rw [decodeStep_markerState]
  unfold markerLogic
  rw [if_pos hc']

theorem paramsLogic_indep (b : List Nat) (i c : Nat) (p : Option Parser) (hc : isParamB c) :
    paramsLogic b i c p = paramsLogic [] 0 c p := by
  rcases hc with hd | hv | hv
  · unfold paramsLogic
    rw [if_pos hd, if_pos hd]
  · subst hv
    rfl
  · subst hv
    rfl

theorem step_marker_params (b : List Nat) (i c st : Nat) (p : Option Parser)
    (hst : st = MarkerState ∨ st = ParamsState) (hc : isParamB c) :
    decodeStep b i c st p = paramsLogic [] 0 c p := by
  rcases hst with hst | hst <;> subst hst
  · rw [decodeStep_markerState]
    unfold markerLogic
    rw [if_neg (by rcases hc with h | h | h <;> omega : ¬(0x3C ≤ c ∧ c ≤ 0x3F))]
    exact paramsLogic_indep b i c p hc
  · rw [decodeStep_paramsState]
    exact paramsLogic_indep b i c p hc

theorem paramsLogic_shape (c : Nat) (p : Option Parser) (hc : isParamB c) :
    (∃ p', paramsLogic [] 0 c p = .cont ParamsState p') ∨ paramsLogic [] 0 c p = .panic := by
  rcases hc with hd | hv | hv
  · rcases p with _ | q
    · exact Or.inl ⟨none, by unfold paramsLogic; rw [if_pos hd]⟩
    · rcases hq : q.params.get? q.paramsLen with _ | v
      · right
        unfold paramsLogic
        rw [if_pos hd]
        simp only [hq]
      · left
        unfold paramsLogic
        rw [if_pos hd]
        simp only [hq]
        exact ⟨_, rfl⟩
  · subst hv
    rcases p with _ | q
    · exact Or.inl ⟨none, rfl⟩
    · rcases hq : q.params.get? q.paramsLen with _ | v
      · right
        unfold paramsLogic
        simp only [hq]
        norm_num
      · left
        unfold paramsLogic
        simp only [hq]
        norm_num
  · subst hv
    exact Or.inl ⟨p.map advanceParam, rfl⟩

theorem intermedLogic_inter (b : List Nat) (i c : Nat) (p : Option Parser) (hc : isInterB c) :
    intermedLogic b i c p =
      .cont IntermedState (p.map fun q => { q with cmd := setCmdByte intermedShift c q.cmd }) := by
  have hc' : 0x20 ≤ c ∧ c ≤ 0x2F := hc
  unfold intermedLogic
  rw [if_pos hc']

theorem paramsLogic_inter (b : List Nat) (i c : Nat) (p : Option Parser) (hc : isInterB c) :
    paramsLogic b i c p =
      .cont IntermedState (p.map fun q => { q with cmd := setCmdByte intermedShift c q.cmd }) := by
  have hc' : 0x20 ≤ c ∧ c ≤ 0x2F := hc
  unfold paramsLogic
  rw [if_neg (by omega : ¬(0x30 ≤ c ∧ c ≤ 0x39)), if_neg (by omega : ¬(c = 0x3A)),
    if_neg (by omega : ¬(c = 0x3B))]
  exact intermedLogic_inter b i c p hc

theorem step_inter (b : List Nat) (i c st : Nat) (p : Option Parser)
    (hst : st = MarkerState ∨ st = ParamsState ∨ st = IntermedState) (hc : isInterB c) :
    decodeStep b i c st p =
      .cont IntermedState (p.map fun q => { q with cmd := setCmdByte intermedShift c q.cmd }) := by
  have hc' : 0x20 ≤ c ∧ c ≤ 0x2F := hc
  rcases hst with hst | hst | hst <;> subst hst
  · rw [decodeStep_markerState]
    unfold markerLogic
    rw [if_neg (by omega : ¬(0x3C ≤ c ∧ c ≤ 0x3F))]
    exact paramsLogic_inter b i c p hc
  · rw [decodeStep_paramsState]
    exact paramsLogic_inter b i c p hc
  · rw [decodeStep_intermedState]
    exact intermedLogic_inter b i c p hc

theorem intermedLogic_final (b : List Nat) (i f : Nat) (p : Option Parser)
    (hf1 : 0x40 ≤ f) (hf2 : f ≤ 0x7E) (hdcs : hasDcsIntro b = false) :
    intermedLogic b i f p = .ret ⟨0, i + 1, NormalState, finalizeCsi p f⟩ := by
  unfold intermedLogic
  rw [if_neg (by omega : ¬(0x20 ≤ f ∧ f ≤ 0x2F)), if_pos ⟨hf1, hf2⟩, hdcs]
  rfl

theorem step_final (b : List Nat) (i f st : Nat) (p : Option Parser)
    (hst : st = MarkerState ∨ st = ParamsState ∨ st = IntermedState)
    (hf1 : 0x40 ≤ f) (hf2 : f ≤ 0x7E) (hdcs : hasDcsIntro b = false) :
    decodeStep b i f st p = .ret ⟨0, i + 1, NormalState, finalizeCsi p f⟩ := by
  have hpl : paramsLogic b i f p = .ret ⟨0, i + 1, NormalState, finalizeCsi p f⟩ := by
    unfold paramsLogic
    rw [if_neg (by omega : ¬(0x30 ≤ f ∧ f ≤ 0x39)), if_neg (by omega : ¬(f = 0x3A)),
      if_neg (by omega : ¬(f = 0x3B))]
    exact intermedLogic_final b i f p hf1 hf2 hdcs
  rcases hst with hst | hst | hst <;> subst hst
  · rw [decodeStep_markerState]
    unfold markerLogic
    rw [if_neg (by omega : ¬(0x3C ≤ f ∧ f ≤ 0x3F))]
    exact hpl
  · rw [decodeStep_paramsState]
    exact hpl
  · rw [decodeStep_intermedState]
    exact intermedLogic_final b i f p hf1 hf2 hdcs

theorem step_escape_inter (b : List Nat) (i c : Nat) (p : Option Parser) (hc : isInterB c) :
    decodeStep b i c EscapeState p =
      .cont EscapeState (p.map fun q => { q with cmd := setCmdByte intermedShift c q.cmd }) := by
  have hc' : 0x20 ≤ c ∧ c ≤ 0x2F := hc
  rw [decodeStep_escapeState]
  unfold escapeLogic
  rw [if_neg (by omega : ¬(c = 0x5B ∨ c = 0x50)),
    if_neg (by omega : ¬(c = 0x5D ∨ c = 0x58 ∨ c = 0x5E ∨ c = 0x5F)), if_pos hc']

theorem step_escape_final (b : List Nat) (i f : Nat) (p : Option Parser)
    (hf1 : 0x30 ≤ f) (hf2 : f ≤ 0x7E)
    (hf3 : f ∉ ([0x5B, 0x50, 0x5D, 0x58, 0x5E, 0x5F] : List Nat)) :
    decodeStep b i f EscapeState p = .ret ⟨0, i + 1, NormalState, finalizeEsc p f⟩ := by
  simp only [List.mem_cons, List.not_mem_nil, or_false, not_or] at hf3
  obtain ⟨h1, h2, h3, h4, h5, h6⟩ := hf3
  rw [decodeStep_escapeState]
  unfold escapeLogic
  rw [if_neg (by omega : ¬(f = 0x5B ∨ f = 0x50)),
    if_neg (by omega : ¬(f = 0x5D ∨ f = 0x58 ∨ f = 0x5E ∨ f = 0x5F)),
    if_neg (by omega : ¬(0x20 ≤ f ∧ f ≤ 0x2F)), if_pos ⟨hf1, hf2⟩]
  rfl

theorem run_markers (ms : List Nat) (hms : ∀ c ∈ ms, isMarkerB c) :
    ∀ (b rest : List Nat) (i : Nat) (p : Option Parser),
    decodeLoop b (ms ++ rest) i MarkerState p =
      decodeLoop b rest (i + ms.length) MarkerState (foldMarker p ms) := by
  induction ms with
  | nil => intro b rest i p; simp [foldMarker]
  | cons c cs ih =>
    intro b rest i p
    rw [List.cons_append,
      decodeLoop_cons_cont b c (cs ++ rest) i MarkerState p MarkerState _
        (step_marker b i c p (hms c (List.mem_cons_self c cs))),
      ih (fun d hd => hms d (List.mem_cons_of_mem c hd)) b rest (i + 1)]
    have h1 : i + 1 + cs.length = i + (c :: cs).length := by simp; omega
    rw [h1]
    rfl

theorem run_escape_inters (is : List Nat) (his : ∀ c ∈ is, isInterB c) :
    ∀ (b rest : List Nat) (i : Nat) (p : Option Parser),
    decodeLoop b (is ++ rest) i EscapeState p =
      decodeLoop b rest (i + is.length) EscapeState (foldInter p is) := by
  induction is with
  | nil => intro b rest i p; simp [foldInter]
  | cons c cs ih =>
    intro b rest i p
    rw [List.cons_append,
      decodeLoop_cons_cont b c (cs ++ rest) i EscapeState p EscapeState _
        (step_escape_inter b i c p (his c (List.mem_cons_self c cs))),
      ih (fun d hd => his d (List.mem_cons_of_mem c hd)) b rest (i + 1)]
    have h1 : i + 1 + cs.length = i + (c :: cs).length := by simp; omega
    rw [h1]
    rfl

theorem run_inters (is : List Nat) (his : ∀ c ∈ is, isInterB c) :
    ∀ (b rest : List Nat) (i st : Nat) (p : Option Parser),
    (st = MarkerState ∨ st = ParamsState ∨ st = IntermedState) →
    decodeLoop b (is ++ rest) i st p =
      decodeLoop b rest (i + is.length) (if is.isEmpty then st else IntermedState)
        (foldInter p is) := by
  induction is with
  | nil => intro b rest i st p _; simp [foldInter]
  | cons c cs ih =>
    intro b rest i st p hst
    rw [List.cons_append,
      decodeLoop_cons_cont b c (cs ++ rest) i st p IntermedState _
        (step_inter b i c st p hst (his c (List.mem_cons_self c cs))),
      ih (fun d hd => his d (List.mem_cons_of_mem c hd)) b rest (i + 1) IntermedState _
        (Or.inr (Or.inr rfl))]
    have h1 : i + 1 + cs.length = i + (c :: cs).length := by simp; omega
    rw [h1, ite_self]
    rfl

theorem run_params (ps : List Nat) (hps : ∀ c ∈ ps, isParamB c) :
    ∀ (b rest : List Nat) (i st : Nat) (p : Option Parser),
    (st = MarkerState ∨ st = ParamsState) →
    decodeLoop b (ps ++ rest) i st p =
      match paramsAcc p ps with
      | some p' => decodeLoop b rest (i + ps.length) (if ps.isEmpty then st else ParamsState) p'
      | none => none := by
  induction ps with
  | nil => intro b rest i st p _; simp [paramsAcc]
  | cons c cs ih =>
    intro b rest i st p hst
    have hcp : isParamB c := hps c (List.mem_cons_self c cs)
    have hstep := step_marker_params b i c st p hst hcp
    rcases paramsLogic_shape c p hcp with ⟨p', hp'⟩ | hpanic
    · rw [List.cons_append,
        decodeLoop_cons_cont b c (cs ++ rest) i st p ParamsState p' (hstep.trans hp'),
        ih (fun d hd => hps d (List.mem_cons_of_mem c hd)) b rest (i + 1) ParamsState p'
          (Or.inr rfl)]
      have hacc : paramsAcc p (c :: cs) = paramsAcc p' cs := by
        conv_lhs => unfold paramsAcc
        rw [hp']
      rw [hacc]
      have h1 : i + 1 + cs.length = i + (c :: cs).length := by simp; omega
      rcases hacc2 : paramsAcc p' cs with _ | p2
      · rfl
      · rw [h1, ite_self]
        rfl
    · rw [List.cons_append,
        decodeLoop_cons_panic b c (cs ++ rest) i st p (hstep.trans hpanic)]
      have hacc : paramsAcc p (c :: cs) = none := by
        conv_lhs => unfold paramsAcc
        rw [hpanic]
      rw [hacc]

theorem foldMarker_append (p : Option Parser) (xs ys : List Nat) :
    foldMarker p (xs ++ ys) = foldMarker (foldMarker p xs) ys := by
  simp [foldMarker, List.foldl_append]

theorem foldInter_append (p : Option Parser) (xs ys : List Nat) :
    foldInter p (xs ++ ys) = foldInter (foldInter p xs) ys := by
  simp [foldInter, List.foldl_append]

theorem paramsAcc_cons (p : Option Parser) (c : Nat) (cs : List Nat) :
    paramsAcc p (c :: cs) =
      match paramsLogic [] 0 c p with
      | .cont _ p' => paramsAcc p' cs
      | _ => none := rfl

theorem paramsAcc_append (xs ys : List Nat) :
    ∀ p : Option Parser,
    paramsAcc p (xs ++ ys) = (paramsAcc p xs).bind fun p' => paramsAcc p' ys := by
  induction xs with
  | nil => intro p; rfl
  | cons c cs ih =>
    intro p
    rw [List.cons_append, paramsAcc_cons p c (cs ++ ys), paramsAcc_cons p c cs]
    rcases h : paramsLogic [] 0 c p with ⟨st', q1⟩ | r | _
    · exact ih q1
    · rfl
    · rfl

theorem run_csi_tail2 (is : List Nat) (his : ∀ c ∈ is, isInterB c)
    (b rest : List Nat) (i st : Nat) (p : Option Parser)
    (hst : st = MarkerState ∨ st = ParamsState ∨ st = IntermedState)
    (f : Nat) (hf1 : 0x40 ≤ f) (hf2 : f ≤ 0x7E) (hdcs : hasDcsIntro b = false) :
    decodeLoop b (is ++ f :: rest) i st p =
      some ⟨0, i + is.length + 1, NormalState, finalizeCsi (foldInter p is) f⟩ := by
  rw [run_inters is his b (f :: rest) i st p hst]
  have hst2 : (if is.isEmpty then st else IntermedState) = MarkerState ∨
      (if is.isEmpty then st else IntermedState) = ParamsState ∨
      (if is.isEmpty then st else IntermedState) = IntermedState := by
    rcases hst with h | h | h <;> rw [h] <;> split <;> simp [MarkerState, ParamsState, IntermedState]
  rw [decodeLoop_cons_ret b f rest (i + is.length) _ (foldInter p is) _
    (step_final b (i + is.length) f _ (foldInter p is) hst2 hf1 hf2 hdcs)]

theorem run_csi_tail_some (ps : List Nat) (hps : ∀ c ∈ ps, isParamB c)
    (is : List Nat) (his : ∀ c ∈ is, isInterB c)
    (b rest : List Nat) (i st : Nat) (p p' : Option Parser)
    (hst : st = MarkerState ∨ st = ParamsState) (hacc : paramsAcc p ps = some p')
    (f : Nat) (hf1 : 0x40 ≤ f) (hf2 : f ≤ 0x7E) (hdcs : hasDcsIntro b = false) :
    decodeLoop b (ps ++ is ++ f :: rest) i st p =
      some ⟨0, i + ps.length + is.length + 1, NormalState,
        finalizeCsi (foldInter p' is) f⟩ := by
  rw [List.append_assoc, run_params ps hps b (is ++ f :: rest) i st p hst, hacc]
  have hst2 : (if ps.isEmpty then st else ParamsState) = MarkerState ∨
      (if ps.isEmpty then st else ParamsState) = ParamsState ∨
      (if ps.isEmpty then st else ParamsState) = IntermedState := by
    rcases hst with h | h <;> rw [h] <;> split <;> simp [MarkerState, ParamsState, IntermedState]
  exact run_csi_tail2 is his b rest (i + ps.length) _ p' hst2 f hf1 hf2 hdcs

theorem run_csi_tail_none (ps : List Nat) (hps : ∀ c ∈ ps, isParamB c)
    (b rest2 : List Nat) (i st : Nat) (p : Option Parser)
    (hst : st = MarkerState ∨ st = ParamsState) (hacc : paramsAcc p ps = none) :
    decodeLoop b (ps ++ rest2) i st p = none := by
  rw [run_params ps hps b rest2 i st p hst, hacc]

theorem run_csi_body_some (ms : List Nat) (hms : ∀ c ∈ ms, isMarkerB c)
    (ps : List Nat) (hps : ∀ c ∈ ps, isParamB c)
    (is : List Nat) (his : ∀ c ∈ is, isInterB c)
    (b rest : List Nat) (i : Nat) (p p' : Option Parser)
    (hacc : paramsAcc (foldMarker p ms) ps = some p')
    (f : Nat) (hf1 : 0x40 ≤ f) (hf2 : f ≤ 0x7E) (hdcs : hasDcsIntro b = false) :
    decodeLoop b (ms ++ ps ++ is ++ f :: rest) i MarkerState p =
      some ⟨0, i + ms.length + ps.length + is.length + 1, NormalState,
        finalizeCsi (foldInter p' is) f⟩ := by
  rw [List.append_assoc, List.append_assoc, run_markers ms hms b (ps ++ (is ++ f :: rest)) i p,
    ← List.append_assoc]
  exact run_csi_tail_some ps hps is his b rest (i + ms.length) MarkerState
    (foldMarker p ms) p' (Or.inl rfl) hacc f hf1 hf2 hdcs

theorem run_csi_body_none (ms : List Nat) (hms : ∀ c ∈ ms, isMarkerB c)
    (ps : List Nat) (hps : ∀ c ∈ ps, isParamB c)
    (b rest2 : List Nat) (i : Nat) (p : Option Parser)
    (hacc : paramsAcc (foldMarker p ms) ps = none) :
    decodeLoop b (ms ++ ps ++ rest2) i MarkerState p = none := by
  rw [List.append_assoc, run_markers ms hms b (ps ++ rest2) i p]
  exact run_csi_tail_none ps hps b rest2 (i + ms.length) MarkerState
    (foldMarker p ms) (Or.inl rfl) hacc

theorem run_esc_body (is : List Nat) (his : ∀ c ∈ is, isInterB c)
    (b rest : List Nat) (i : Nat) (p : Option Parser)
    (f : Nat) (hf1 : 0x30 ≤ f) (hf2 : f ≤ 0x7E)
    (hf3 : f ∉ ([0x5B, 0x50, 0x5D, 0x58, 0x5E, 0x5F] : List Nat)) :
    decodeLoop b (is ++ f :: rest) i EscapeState p =
      some ⟨0, i + is.length + 1, NormalState, finalizeEsc (foldInter p is) f⟩ := by
  rw [run_escape_inters is his b (f :: rest) i p,
    decodeLoop_cons_ret b f rest (i + is.length) EscapeState (foldInter p is) _
      (step_escape_final b (i + is.length) f (foldInter p is) hf1 hf2 hf3)]

theorem hasDcsIntro_false (t : List Nat) (h : ∀ c ∈ t, 0x20 ≤ c ∧ c ≤ 0x7E) :
    hasDcsIntro t = false := by
  rcases t with _ | ⟨c0, _ | ⟨c1, t2⟩⟩
  · rfl
  · have h0 := h c0 (List.mem_cons_self c0 [])
    simp [hasDcsIntro, DCS]
    omega
  · have h0 := h c0 (List.mem_cons_self _ _)
    simp [hasDcsIntro, DCS, ESC]
    omega

theorem hasDcsIntro_lbrack (t : List Nat) : hasDcsIntro (0x5B :: t) = false := by
  rcases t with _ | ⟨c1, t2⟩ <;> rfl

theorem hasDcsIntro_csi (t : List Nat) : hasDcsIntro (CSI :: t) = false := by
  rcases t with _ | ⟨c1, t2⟩ <;> rfl

theorem run_params_some (ps : List Nat) (hps : ∀ c ∈ ps, isParamB c)
    (b rest : List Nat) (i st : Nat) (p p1 : Option Parser)
    (hst : st = MarkerState ∨ st = ParamsState) (hacc : paramsAcc p ps = some p1) :
    decodeLoop b (ps ++ rest) i st p =
      decodeLoop b rest (i + ps.length) (if ps.isEmpty then st else ParamsState) p1 := by
  rw [run_params ps hps b rest i st p hst, hacc]

theorem run_markers_end (ms : List Nat) (hms : ∀ c ∈ ms, isMarkerB c)
    (b : List Nat) (i : Nat) (p : Option Parser) :
    decodeLoop b ms i MarkerState p = some ⟨0, b.length, MarkerState, foldMarker p ms⟩ := by
  have h := run_markers ms hms b [] i p
  rw [List.append_nil] at h
  rw [h, decodeLoop_nil]

theorem run_params_end (ps : List Nat) (hps : ∀ c ∈ ps, isParamB c)
    (b : List Nat) (i st : Nat) (p p1 : Option Parser)
    (hst : st = MarkerState ∨ st = ParamsState) (hacc : paramsAcc p ps = some p1)
    (hne : ps.isEmpty = false) :
    decodeLoop b ps i st p = some ⟨0, b.length, ParamsState, p1⟩ := by
  have h := run_params_some ps hps b [] i st p p1 hst hacc
  rw [List.append_nil] at h
  rw [h, decodeLoop_nil, hne]
  rfl

theorem run_inters_end (is : List Nat) (his : ∀ c ∈ is, isInterB c)
    (b : List Nat) (i st : Nat) (p : Option Parser)
    (hst : st = MarkerState ∨ st = ParamsState ∨ st = IntermedState)
    (hne : is.isEmpty = false) :
    decodeLoop b is i st p = some ⟨0, b.length, IntermedState, foldInter p is⟩ := by
  have h := run_inters is his b [] i st p hst
  rw [List.append_nil] at h
  rw [h, decodeLoop_nil, hne]
  rfl

theorem csi_split_body (ms : List Nat) (hms : ∀ c ∈ ms, isMarkerB c)
    (ps : List Nat) (hps : ∀ c ∈ ps, isParamB c)
    (is : List Nat) (his : ∀ c ∈ is, isInterB c)
    (f : Nat) (hf1 : 0x40 ≤ f) (hf2 : f ≤ 0x7E)
    (j : Nat) (hj : j ≤ ms.length + ps.length + is.length)
    (b1 b2 : List Nat) (i1 : Nat) (p2 p' : Option Parser)
    (hacc : paramsAcc (foldMarker p2 ms) ps = some p')
    (hdcs2 : hasDcsIntro b2 = false) :
    ∃ st1 q1,
      decodeLoop b1 ((ms ++ ps ++ is ++ [f]).take j) i1 MarkerState p2 =
        some ⟨0, b1.length, st1, q1⟩ ∧
      decodeLoop b2 ((ms ++ ps ++ is ++ [f]).drop j) 0 st1 q1 =
        some ⟨0, ms.length + ps.length + is.length + 1 - j, NormalState,
          finalizeCsi (foldInter p' is) f⟩ := by
  have hl1 : j ≤ ((ms ++ ps) ++ is).length := by simp; omega
  by_cases hA : j ≤ ms.length
  · have hl2 : j ≤ (ms ++ ps).length := by simp; omega
    have htake : (ms ++ ps ++ is ++ [f]).take j = ms.take j := by
      rw [List.take_append_of_le_length hl1, List.take_append_of_le_length hl2,
        List.take_append_of_le_length hA]
    have hdrop : (ms ++ ps ++ is ++ [f]).drop j = ms.drop j ++ ps ++ is ++ [f] := by
      rw [List.drop_append_of_le_length hl1, List.drop_append_of_le_length hl2,
        List.drop_append_of_le_length hA]
    refine ⟨MarkerState, foldMarker p2 (ms.take j), ?_, ?_⟩
    · rw [htake]
      exact run_markers_end (ms.take j) (fun c hc => hms c (List.take_subset j ms hc)) b1 i1 p2
    · have hacc2 : paramsAcc (foldMarker (foldMarker p2 (ms.take j)) (ms.drop j)) ps = some p' := by
        rw [← foldMarker_append, List.take_append_drop]
        exact hacc
      rw [hdrop, run_csi_body_some (ms.drop j) (fun c hc => hms c (List.drop_subset j ms hc))
        ps hps is his b2 [] 0 (foldMarker p2 (ms.take j)) p' hacc2 f hf1 hf2 hdcs2]
      simp only [Option.some.injEq, DecodeResult.mk.injEq, List.length_drop, true_and, and_true]
      omega
  · by_cases hB : j ≤ ms.length + ps.length
    · have hl2 : j ≤ (ms ++ ps).length := by simp; omega
      have hjeq : j = ms.length + (j - ms.length) := by omega
      have htake : (ms ++ ps ++ is ++ [f]).take j = ms ++ ps.take (j - ms.length) := by
        rw [List.take_append_of_le_length hl1, List.take_append_of_le_length hl2]
        nth_rewrite 1 [hjeq]
        rw [List.take_append]
      have hdrop : (ms ++ ps ++ is ++ [f]).drop j = ps.drop (j - ms.length) ++ is ++ [f] := by
        rw [List.drop_append_of_le_length hl1, List.drop_append_of_le_length hl2]
        nth_rewrite 1 [hjeq]
        rw [List.drop_append]
      have hsplit := paramsAcc_append (ps.take (j - ms.length)) (ps.drop (j - ms.length))
        (foldMarker p2 ms)
      rw [List.take_append_drop, hacc] at hsplit
      rcases h4 : paramsAcc (foldMarker p2 ms) (ps.take (j - ms.length)) with _ | p4
      · rw [h4] at hsplit
        simp at hsplit
      · rw [h4] at hsplit
        simp only [Option.some_bind] at hsplit
        have hne : (ps.take (j - ms.length)).isEmpty = false := by
          rcases hps0 : ps.take (j - ms.length) with _ | ⟨x, xs⟩
          · exfalso
            have hlen : (ps.take (j - ms.length)).length = 0 := by rw [hps0]; rfl
            rw [List.length_take] at hlen
            omega
          · rfl
        refine ⟨ParamsState, p4, ?_, ?_⟩
        · rw [htake, run_markers ms hms b1 (ps.take (j - ms.length)) i1 p2]
          exact run_params_end (ps.take (j - ms.length))
            (fun c hc => hps c (List.take_subset _ ps hc)) b1 (i1 + ms.length)
            MarkerState (foldMarker p2 ms) p4 (Or.inl rfl) h4 hne
        · rw [hdrop, run_csi_tail_some (ps.drop (j - ms.length))
            (fun c hc => hps c (List.drop_subset _ ps hc)) is his b2 [] 0
            ParamsState p4 p' (Or.inr rfl) hsplit.symm f hf1 hf2 hdcs2]
          simp only [Option.some.injEq, DecodeResult.mk.injEq, List.length_drop, true_and, and_true]
          omega
    · have hjeq : j = (ms ++ ps).length + (j - ms.length - ps.length) := by simp; omega
      have htake : (ms ++ ps ++ is ++ [f]).take j =
          (ms ++ ps) ++ is.take (j - ms.length - ps.length) := by
        rw [List.take_append_of_le_length hl1]
        nth_rewrite 1 [hjeq]
        rw [List.take_append]
      have hdrop : (ms ++ ps ++ is ++ [f]).drop j =
          is.drop (j - ms.length - ps.length) ++ [f] := by
        rw [List.drop_append_of_le_length hl1]
        nth_rewrite 1 [hjeq]
        rw [List.drop_append]
      have hne : (is.take (j - ms.length - ps.length)).isEmpty = false := by
        rcases his0 : is.take (j - ms.length - ps.length) with _ | ⟨x, xs⟩
        · exfalso
          have hlen : (is.take (j - ms.length - ps.length)).length = 0 := by rw [his0]; rfl
          rw [List.length_take] at hlen
          omega
        · rfl
      have hctx : foldInter (foldInter p' (is.take (j - ms.length - ps.length)))
          (is.drop (j - ms.length - ps.length)) = foldInter p' is := by
        rw [← foldInter_append, List.take_append_drop]
      refine ⟨IntermedState, foldInter p' (is.take (j - ms.length - ps.length)), ?_, ?_⟩
      · rw [htake, List.append_assoc, run_markers ms hms b1 _ i1 p2,
          run_params_some ps hps b1 _ (i1 + ms.length) MarkerState (foldMarker p2 ms) p'
            (Or.inl rfl) hacc]
        refine run_inters_end (is.take (j - ms.length - ps.length))
          (fun c hc => his c (List.take_subset _ is hc)) b1 _ _ p' ?_ hne
        split
        · exact Or.inl rfl
        · exact Or.inr (Or.inl rfl)
      · rw [hdrop, run_csi_tail2 (is.drop (j - ms.length - ps.length))
          (fun c hc => his c (List.drop_subset _ is hc)) b2 [] 0 IntermedState
          (foldInter p' (is.take (j - ms.length - ps.length)))
          (Or.inr (Or.inr rfl)) f hf1 hf2 hdcs2, hctx]
        simp only [Option.some.injEq, DecodeResult.mk.injEq, List.length_drop, true_and, and_true]
        omega

theorem run_escape_inters_end (is : List Nat) (his : ∀ c ∈ is, isInterB c)
    (b : List Nat) (i : Nat) (p : Option Parser) :
    decodeLoop b is i EscapeState p = some ⟨0, b.length, EscapeState, foldInter p is⟩ := by
  have h := run_escape_inters is his b [] i p
  rw [List.append_nil] at h
  rw [h, decodeLoop_nil]

theorem esc_split_body (is : List Nat) (his : ∀ c ∈ is, isInterB c)
    (f : Nat) (hf1 : 0x30 ≤ f) (hf2 : f ≤ 0x7E)
    (hf3 : f ∉ ([0x5B, 0x50, 0x5D, 0x58, 0x5E, 0x5F] : List Nat))
    (j : Nat) (hj : j ≤ is.length) (b1 b2 : List Nat) (i1 : Nat) (p2 : Option Parser) :
    ∃ q1,
      decodeLoop b1 ((is ++ [f]).take j) i1 EscapeState p2 =
        some ⟨0, b1.length, EscapeState, q1⟩ ∧
      decodeLoop b2 ((is ++ [f]).drop j) 0 EscapeState q1 =
        some ⟨0, is.length + 1 - j, NormalState, finalizeEsc (foldInter p2 is) f⟩ := by
  have htake : (is ++ [f]).take j = is.take j := List.take_append_of_le_length hj
  have hdrop : (is ++ [f]).drop j = is.drop j ++ [f] := List.drop_append_of_le_length hj
  have hctx : foldInter (foldInter p2 (is.take j)) (is.drop j) = foldInter p2 is := by
    rw [← foldInter_append, List.take_append_drop]
  refine ⟨foldInter p2 (is.take j), ?_, ?_⟩
  · rw [htake]
    exact run_escape_inters_end (is.take j) (fun c hc => his c (List.take_subset j is hc)) b1 i1 p2
  · rw [hdrop, run_esc_body (is.drop j) (fun c hc => his c (List.drop_subset j is hc))
      b2 [] 0 (foldInter p2 (is.take j)) f hf1 hf2 hf3, hctx]
    simp only [Option.some.injEq, DecodeResult.mk.injEq, List.length_drop, true_and, and_true]
    omega

theorem csiBody_bounds (ms : List Nat) (hms : ∀ c ∈ ms, isMarkerB c)
    (ps : List Nat) (hps : ∀ c ∈ ps, isParamB c)
    (is : List Nat) (his : ∀ c ∈ is, isInterB c)
    (f : Nat) (hf1 : 0x40 ≤ f) (hf2 : f ≤ 0x7E) :
    ∀ c ∈ ms ++ ps ++ is ++ [f], 0x20 ≤ c ∧ c ≤ 0x7E := by
  intro c hc
  simp only [List.mem_append, List.mem_singleton] at hc
  rcases hc with ((hm | hp) | hi) | hf
  · obtain ⟨a1, a2⟩ := hms c hm
    omega
  · rcases hps c hp with ⟨a1, a2⟩ | h | h <;> omega
  · obtain ⟨a1, a2⟩ := his c hi
    omega
  · subst hf
    omega

theorem c1_split_ends (s : List Nat) (p : Option Parser) (r : DecodeResult) (k : Nat)
    (hw : DecodeSequence s NormalState p = some r)
    (hr1 : r.width = 0) (hr2 : r.n = s.length) (hr3 : r.state = NormalState)
    (hk0 : k = 0 ∨ k = s.length) :
    ∃ r1 r2, DecodeSequence (s.take k) NormalState p = some r1 ∧
      r1.width = 0 ∧ r1.n = k ∧
      DecodeSequence (s.drop k) r1.state r1.ctx = some r2 ∧
      r2.width = 0 ∧ r2.n = s.length - k ∧ r2.state = NormalState ∧ r2.ctx = r.ctx := by
  rcases hk0 with hk0 | hk0 <;> subst hk0
  · refine ⟨⟨0, 0, NormalState, p⟩, r, ?_, rfl, rfl, ?_, hr1, ?_, hr3, rfl⟩
    · rw [List.take_zero]
      rfl
    · rw [List.drop_zero]
      exact hw
    · omega
  · refine ⟨r, ⟨0, 0, NormalState, r.ctx⟩, ?_, hr1, hr2, ?_, rfl, ?_, rfl, rfl⟩
    · rw [List.take_length]
      exact hw
    · rw [List.drop_length, hr3]
      rfl
    · simp

/-- C1 (amended): resumability holds for complete CSI sequences (7-bit `ESC [`
or 8-bit CSI introducer) and for plain two-or-more-byte ESC sequences — the
sequences whose scan never enters the String state.  For such a sequence,
splitting at any byte position `k` and calling `DecodeSequence` on the first
half and then on the remainder (passing the returned state and context) yields
zero-width results whose byte counts sum to the whole and whose final state and
parser context equal those of the single whole-buffer call.  (For String-type
sequences — OSC/DCS/APC/SOS/PM — resumability fails because the terminator
handling consults prefix checks on the current call's buffer; see the
counterexample.) -/
theorem c1_resumable_amended (s : List Nat) (p : Option Parser)
    (hval : ValidCsi s ∨ ValidEsc s) (k : Nat) (hk : k ≤ s.length)
    (r : DecodeResult) (hw : DecodeSequence s NormalState p = some r) :
    r.width = 0 ∧ r.n = s.length ∧ r.state = NormalState ∧
    ∃ r1 r2, DecodeSequence (s.take k) NormalState p = some r1 ∧
      r1.width = 0 ∧ r1.n = k ∧
      DecodeSequence (s.drop k) r1.state r1.ctx = some r2 ∧
      r2.width = 0 ∧ r2.n = s.length - k ∧ r2.state = NormalState ∧ r2.ctx = r.ctx := by
  rcases hval with hcsi | hesc
  · obtain ⟨intro, ms, ps, is, f, hs, hintro, hms, hps, his, hf1, hf2⟩ := hcsi
    rcases hintro with hintro | hintro
    · -- 7-bit `ESC [` introducer
      subst hintro
      have hsform : s = ESC :: 0x5B :: (ms ++ ps ++ is ++ [f]) := by
        rw [hs]
        simp
      have hlen : s.length = ms.length + ps.length + is.length + 3 := by
        rw [hsform]
        simp
        omega
      rcases hacc : paramsAcc (foldMarker ((p.map resetCtx).map resetCtxEsc) ms) ps with _ | p'
      · exfalso
        have hnone : DecodeSequence s NormalState p = none := by
          unfold DecodeSequence
          rw [hsform,
            decodeLoop_cons_cont _ ESC _ 0 NormalState p EscapeState _ (step_normal_esc _ 0 p),
            decodeLoop_cons_cont _ 0x5B _ 1 EscapeState _ MarkerState _ (step_escape_lbrack _ 1 _),
            List.append_assoc (ms ++ ps) is [f]]
          exact run_csi_body_none ms hms ps hps _ (is ++ [f]) 2 _ hacc
        rw [hnone] at hw
        exact Option.noConfusion hw
      · have hwhole : DecodeSequence s NormalState p =
            some ⟨0, ms.length + ps.length + is.length + 3, NormalState,
              finalizeCsi (foldInter p' is) f⟩ := by
          unfold DecodeSequence
          rw [hsform,
            decodeLoop_cons_cont _ ESC _ 0 NormalState p EscapeState _ (step_normal_esc _ 0 p),
            decodeLoop_cons_cont _ 0x5B _ 1 EscapeState _ MarkerState _ (step_escape_lbrack _ 1 _),
            run_csi_body_some ms hms ps hps is his (ESC :: 0x5B :: (ms ++ ps ++ is ++ [f]))
              [] 2 ((p.map resetCtx).map resetCtxEsc) p' hacc f hf1 hf2 rfl]
          simp only [Option.some.injEq, DecodeResult.mk.injEq, true_and, and_true]
          omega
        rw [hwhole] at hw
        have hr := (Option.some.inj hw).symm
        subst hr
        refine ⟨rfl, by simp [hlen], rfl, ?_⟩
        rcases Nat.eq_zero_or_pos k with hk0 | hkpos
        · exact c1_split_ends s p _ k hwhole rfl (by simp [hlen]) rfl (Or.inl hk0)
        · by_cases hklen : k = s.length
          · exact c1_split_ends s p _ k hwhole rfl (by simp [hlen]) rfl (Or.inr hklen)
          · by_cases hk1 : k = 1
            · subst hk1
              have ht1 : s.take 1 = [ESC] := by rw [hsform]; rfl
              have hd1 : s.drop 1 = 0x5B :: (ms ++ ps ++ is ++ [f]) := by rw [hsform]; rfl
              refine ⟨⟨0, 1, EscapeState, p.map resetCtx⟩,
                ⟨0, s.length - 1, NormalState, finalizeCsi (foldInter p' is) f⟩,
                ?_, rfl, rfl, ?_, rfl, rfl, rfl, rfl⟩
              · rw [ht1]
                unfold DecodeSequence
                rw [decodeLoop_cons_cont _ ESC _ 0 NormalState p EscapeState _
                  (step_normal_esc _ 0 p), decodeLoop_nil]
                rfl
              · unfold DecodeSequence
                nth_rewrite 2 [hd1]
                rw [decodeLoop_cons_cont _ 0x5B _ 0 EscapeState _ MarkerState _
                    (step_escape_lbrack _ 0 _),
                  run_csi_body_some ms hms ps hps is his _ [] 1 _ p' hacc f hf1 hf2
                    (by rw [hd1]; exact hasDcsIntro_lbrack _)]
                simp only [Option.some.injEq, DecodeResult.mk.injEq, true_and, and_true]
                omega
            · obtain ⟨j, hjk⟩ : ∃ j, k = j + 2 := ⟨k - 2, by omega⟩
              subst hjk
              have ht2 : s.take (j + 2) = ESC :: 0x5B :: (ms ++ ps ++ is ++ [f]).take j := by
                rw [hsform]
                rfl
              have hd2 : s.drop (j + 2) = (ms ++ ps ++ is ++ [f]).drop j := by
                rw [hsform]
                rfl
              have hdcs2 : hasDcsIntro (s.drop (j + 2)) = false := by
                rw [hd2]
                exact hasDcsIntro_false _ (fun c hc =>
                  csiBody_bounds ms hms ps hps is his f hf1 hf2 c (List.drop_subset j _ hc))
              obtain ⟨st1, q1, hc1, hc2⟩ := csi_split_body ms hms ps hps is his f hf1 hf2 j
                (by omega) (s.take (j + 2)) (s.drop (j + 2)) 2
                ((p.map resetCtx).map resetCtxEsc) p' hacc hdcs2
              refine ⟨⟨0, j + 2, st1, q1⟩,
                ⟨0, s.length - (j + 2), NormalState, finalizeCsi (foldInter p' is) f⟩,
                ?_, rfl, rfl, ?_, rfl, rfl, rfl, rfl⟩
              · unfold DecodeSequence
                nth_rewrite 2 [ht2]
                rw [decodeLoop_cons_cont _ ESC _ 0 NormalState p EscapeState _
                    (step_normal_esc _ 0 p),
                  decodeLoop_cons_cont _ 0x5B _ 1 EscapeState _ MarkerState _
                    (step_escape_lbrack _ 1 _),
                  hc1]
                simp only [Option.some.injEq, DecodeResult.mk.injEq, List.length_take,
                  true_and, and_true]
                omega
              · unfold DecodeSequence
                nth_rewrite 2 [hd2]
                rw [hc2]
                simp only [Option.some.injEq, DecodeResult.mk.injEq, true_and, and_true]
                omega
    · -- 8-bit CSI introducer
      subst hintro
      have hsform : s = CSI :: (ms ++ ps ++ is ++ [f]) := by
        rw [hs]
        simp
      have hlen : s.length = ms.length + ps.length + is.length + 2 := by
        rw [hsform]
        simp
        omega
      rcases hacc : paramsAcc (foldMarker (p.map resetCtx) ms) ps with _ | p'
      · exfalso
        have hnone : DecodeSequence s NormalState p = none := by
          unfold DecodeSequence
          rw [hsform,
            decodeLoop_cons_cont _ CSI _ 0 NormalState p MarkerState _ (step_normal_csi8 _ 0 p),
            List.append_assoc (ms ++ ps) is [f]]
          exact run_csi_body_none ms hms ps hps _ (is ++ [f]) 1 _ hacc
        rw [hnone] at hw
        exact Option.noConfusion hw
      · have hwhole : DecodeSequence s NormalState p =
            some ⟨0, ms.length + ps.length + is.length + 2, NormalState,
              finalizeCsi (foldInter p' is) f⟩ := by
          unfold DecodeSequence
          rw [hsform,
            decodeLoop_cons_cont _ CSI _ 0 NormalState p MarkerState _ (step_normal_csi8 _ 0 p),
            run_csi_body_some ms hms ps hps is his _ [] 1 _ p' hacc f hf1 hf2
              (hasDcsIntro_csi _)]
          simp only [Option.some.injEq, DecodeResult.mk.injEq, true_and, and_true]
          omega
        rw [hwhole] at hw
        have hr := (Option.some.inj hw).symm
        subst hr
        refine ⟨rfl, by simp [hlen], rfl, ?_⟩
        rcases Nat.eq_zero_or_pos k with hk0 | hkpos
        · exact c1_split_ends s p _ k hwhole rfl (by simp [hlen]) rfl (Or.inl hk0)
        · by_cases hklen : k = s.length
          · exact c1_split_ends s p _ k hwhole rfl (by simp [hlen]) rfl (Or.inr hklen)
          · obtain ⟨j, hjk⟩ : ∃ j, k = j + 1 := ⟨k - 1, by omega⟩
            subst hjk
            have ht2 : s.take (j + 1) = CSI :: (ms ++ ps ++ is ++ [f]).take j := by
              rw [hsform]
              rfl
            have hd2 : s.drop (j + 1) = (ms ++ ps ++ is ++ [f]).drop j := by
              rw [hsform]
              rfl
            have hdcs2 : hasDcsIntro (s.drop (j + 1)) = false := by
              rw [hd2]
              exact hasDcsIntro_false _ (fun c hc =>
                csiBody_bounds ms hms ps hps is his f hf1 hf2 c (List.drop_subset j _ hc))
            obtain ⟨st1, q1, hc1, hc2⟩ := csi_split_body ms hms ps hps is his f hf1 hf2 j
              (by omega) (s.take (j + 1)) (s.drop (j + 1)) 1 (p.map resetCtx) p' hacc hdcs2
            refine ⟨⟨0, j + 1, st1, q1⟩,
              ⟨0, s.length - (j + 1), NormalState, finalizeCsi (foldInter p' is) f⟩,
              ?_, rfl, rfl, ?_, rfl, rfl, rfl, rfl⟩
            · unfold DecodeSequence
              nth_rewrite 2 [ht2]
              rw [decodeLoop_cons_cont _ CSI _ 0 NormalState p MarkerState _
                  (step_normal_csi8 _ 0 p),
                hc1]
              simp only [Option.some.injEq, DecodeResult.mk.injEq, List.length_take,
                true_and, and_true]
              omega
            · unfold DecodeSequence
              nth_rewrite 2 [hd2]
              rw [hc2]
              simp only [Option.some.injEq, DecodeResult.mk.injEq, true_and, and_true]
              omega
  · -- plain ESC sequence
    obtain ⟨is, f, hs, his, hf1, hf2, hf3⟩ := hesc
    have hlen : s.length = is.length + 2 := by
      rw [hs]
      simp
    have hwhole : DecodeSequence s NormalState p =
        some ⟨0, is.length + 2, NormalState, finalizeEsc (foldInter (p.map resetCtx) is) f⟩ := by
      unfold DecodeSequence
      rw [hs,
        decodeLoop_cons_cont _ ESC _ 0 NormalState p EscapeState _ (step_normal_esc _ 0 p)]
      have h := run_esc_body is his (ESC :: (is ++ [f])) [] 1 (p.map resetCtx) f hf1 hf2 hf3
      rw [h]
      simp only [Option.some.injEq, DecodeResult.mk.injEq, true_and, and_true]
      omega
    rw [hwhole] at hw
    have hr := (Option.some.inj hw).symm
    subst hr
    refine ⟨rfl, by simp [hlen], rfl, ?_⟩
    rcases Nat.eq_zero_or_pos k with hk0 | hkpos
    · exact c1_split_ends s p _ k hwhole rfl (by simp [hlen]) rfl (Or.inl hk0)
    · by_cases hklen : k = s.length
      · exact c1_split_ends s p _ k hwhole rfl (by simp [hlen]) rfl (Or.inr hklen)
      · obtain ⟨j, hjk⟩ : ∃ j, k = j + 1 := ⟨k - 1, by omega⟩
        subst hjk
        have ht2 : s.take (j + 1) = ESC :: (is ++ [f]).take j := by
          rw [hs]
          rfl
        have hd2 : s.drop (j + 1) = (is ++ [f]).drop j := by
          rw [hs]
          rfl
        obtain ⟨q1, hc1, hc2⟩ := esc_split_body is his f hf1 hf2 hf3 j (by omega)
          (s.take (j + 1)) (s.drop (j + 1)) 1 (p.map resetCtx)
        refine ⟨⟨0, j + 1, EscapeState, q1⟩,
          ⟨0, s.length - (j + 1), NormalState, finalizeEsc (foldInter (p.map resetCtx) is) f⟩,
          ?_, rfl, rfl, ?_, rfl, rfl, rfl, rfl⟩
        · unfold DecodeSequence
          nth_rewrite 2 [ht2]
          rw [decodeLoop_cons_cont _ ESC _ 0 NormalState p EscapeState _
              (step_normal_esc _ 0 p),
            hc1]
          simp only [Option.some.injEq, DecodeResult.mk.injEq, List.length_take,
            true_and, and_true]
          omega
        · unfold DecodeSequence
          nth_rewrite 2 [hd2]
          rw [hc2]
          simp only [Option.some.injEq, DecodeResult.mk.injEq, true_and, and_true]
          omega

theorem c1_resumable_amended_witness :
    (ValidCsi [ESC, 0x5B, 0x6D] ∨ ValidEsc [ESC, 0x5B, 0x6D]) ∧
    2 ≤ ([ESC, 0x5B, 0x6D] : List Nat).length ∧
    DecodeSequence [ESC, 0x5B, 0x6D] NormalState none = some ⟨0, 3, NormalState, none⟩ ∧
    ((⟨0, 3, NormalState, none⟩ : DecodeResult).width = 0 ∧
      (⟨0, 3, NormalState, none⟩ : DecodeResult).n = ([ESC, 0x5B, 0x6D] : List Nat).length ∧
      (⟨0, 3, NormalState, none⟩ : DecodeResult).state = NormalState ∧
      ∃ r1 r2,
        DecodeSequence (([ESC, 0x5B, 0x6D] : List Nat).take 2) NormalState none = some r1 ∧
        r1.width = 0 ∧ r1.n = 2 ∧
        DecodeSequence (([ESC, 0x5B, 0x6D] : List Nat).drop 2) r1.state r1.ctx = some r2 ∧
        r2.width = 0 ∧ r2.n = ([ESC, 0x5B, 0x6D] : List Nat).length - 2 ∧
        r2.state = NormalState ∧
        r2.ctx = (⟨0, 3, NormalState, none⟩ : DecodeResult).ctx) :=
  ⟨Or.inl ⟨[ESC, 0x5B], [], [], [], 0x6D, rfl, Or.inl rfl,
      fun c hc => absurd hc (List.not_mem_nil c),
      fun c hc => absurd hc (List.not_mem_nil c),
      fun c hc => absurd hc (List.not_mem_nil c), by decide, by decide⟩,
    by decide, rfl,
    c1_resumable_amended [ESC, 0x5B, 0x6D] none
      (Or.inl ⟨[ESC, 0x5B], [], [], [], 0x6D, rfl, Or.inl rfl,
        fun c hc => absurd hc (List.not_mem_nil c),
        fun c hc => absurd hc (List.not_mem_nil c),
        fun c hc => absurd hc (List.not_mem_nil c), by decide, by decide⟩)
      2 (by decide) ⟨0, 3, NormalState, none⟩ rfl⟩

/-- C1 counterexample: for the String-type (OSC) sequence `ESC ] 5 BEL` the
whole-buffer scan consumes all four bytes and returns to the ground state, but
splitting after the two-byte introducer leaves the first call suspended in the
String state and the second call — given exactly that state and context — eats
the `5` and the BEL as string data and stays in the String state, because the
BEL-terminator test `HasOscPrefix(b)` inspects the second call's own buffer,
which no longer carries the OSC introducer.  The two-call scan therefore never
produces the whole-buffer result, refuting unrestricted resumability. -/
theorem c1_counterexample :
    DecodeSequence [ESC, 0x5D, 0x35, BEL] NormalState none =
      some ⟨0, 4, NormalState, none⟩ ∧
    DecodeSequence (([ESC, 0x5D, 0x35, BEL] : List Nat).take 2) NormalState none =
      some ⟨0, 2, StringState, none⟩ ∧
    DecodeSequence (([ESC, 0x5D, 0x35, BEL] : List Nat).drop 2) StringState none =
      some ⟨0, 2, StringState, none⟩ ∧
    StringState ≠ NormalState :=
  ⟨rfl, rfl, rfl, by decide⟩
